import Mathlib

/-!
# chain33 consensus driver (`consensus/drivers/base.go`)

A shallow embedding of `BaseClient` and a verification of its current-block
cache, transaction de-duplication, mining flag, block write pipeline and
startup (genesis-or-resume) logic.

Conventions of the embedding.

* The receiver `client *BaseClient` is an explicit value `s : BaseClient`
  that every operation takes and returns.
* `int64` / `int32` values are `Int`; the code only compares and assigns
  them, so no wrap-around arises.
* A Go panic is the `Outcome.panic` result; it carries the client as it was
  when the panic was raised.
* The message bus, the execution engine (`util.ExecBlock`), the Merkle root,
  `Transaction.Hash` and the child miner are not part of this package. They
  are the fields of `Env`, and every theorem quantifies over all of them.
* `util.ExecBlock` receives the candidate as a `*types.Block` and may edit it
  in place. Its result therefore has two parts (`Executed`): the block detail
  it returns and the candidate as it stands after the call. What `WriteBlock`
  then caches is the latter, since the source caches that same pointer.
* `BaseClient.trace` is a ghost field. It records, in program order, the
  messages sent on the bus and the entries of `initBlock`, `WriteBlock` and
  `util.ExecBlock`, plus every successful compare-and-swap on `minerStart`.
  No operation reads it.
-/

namespace Drivers

/-! ## Data model (package `types`) -/

/-- One byte of a hash, a parent hash or a payload. -/
abbrev Byte := Fin 256

/-- The value of `tx.Hash()`, also used (as `string(hash)`) as a map key. -/
abbrev Hash := List Byte

/-- Model of `types.Transaction`: an opaque payload. -/
structure Transaction where
  payload : List Byte
  deriving DecidableEq, Repr

/-- Model of `types.Block`, with the fields the driver reads or writes. -/
structure Block where
  ParentHash : List Byte
  TxHash : List Byte
  Height : Int
  BlockTime : Int
  Txs : List Transaction
  deriving DecidableEq, Repr

/-- Model of `types.BlockDetail`: an executed block with its receipts. -/
structure BlockDetail where
  Block : Block
  Receipts : List (List Byte)
  deriving DecidableEq, Repr

/-- Model of `types.Reply`, the answer to an "add block detail" request; `Msg`
is the text `string(reply.GetMsg())`. -/
structure Reply where
  IsOk : Bool
  Msg : String
  deriving DecidableEq, Repr

/-- Model of `types.Consensus`, the configuration the driver reads. -/
structure Consensus where
  Minerstart : Bool
  GenesisBlockTime : Int
  deriving DecidableEq, Repr

/-- The two error values the event loop replies with. -/
inductive Err where
  | ErrMinerIsStared
  | ErrMinerNotStared
  deriving DecidableEq, Repr

/-- The payload of a request sent on the bus, by event type. -/
inductive Request where
  | EventTxHashList (hashes : List Hash)
  | EventGetBlocks (start stop : Int) (isdetail : Bool)
  | EventGetBlockHeight
  | EventAddBlockDetail (detail : BlockDetail)
  deriving DecidableEq, Repr

/-- Ghost observations recorded in `BaseClient.trace`. -/
inductive Obs where
  | send (topic : String) (req : Request)
  | enterInitBlock
  | enterWriteBlock (prevHash : List Byte) (block : Block)
  | enterExecBlock (prevHash : List Byte) (block : Block)
  | swapMinerStart (old new : Int)
  deriving DecidableEq, Repr

/-- What `qclient.Wait` returns: the reply's data (`none` when the message
carries no data of the expected type, so that the type assertion on
`GetData()` panics) and the transport error, if any. -/
structure WaitResult (α : Type) where
  data : Option α
  err : Option String

/-- What a successful `util.ExecBlock(client.q, prevHash, block, false)` leaves
behind: `detail` is the `*types.BlockDetail` it returns, `block` is the
candidate `block` as it stands after the call, with whatever the engine wrote
through the pointer. -/
structure Executed where
  detail : BlockDetail
  block : Block
  deriving DecidableEq, Repr

/-- Everything outside the driver that its operations consult. Each field is
a function of the arguments the driver passes. -/
structure Env where
  /-- Model of `tx.Hash()`. -/
  hash : Transaction → Hash
  /-- Model of `merkle.CalcMerkleRoot`. -/
  CalcMerkleRoot : List Transaction → Hash
  /-- Model of `client.child.CreateGenesisTx()`. -/
  CreateGenesisTx : List Transaction
  /-- Model of `util.ExecBlock(client.q, prevHash, block, false)`. -/
  ExecBlock : List Byte → Block → Except String Executed
  /-- Reply to "get current height". -/
  waitHeight : WaitResult Int
  /-- Reply to "get blocks" for the range `[start, stop]`. -/
  waitBlocks : Int → Int → WaitResult (List BlockDetail)
  /-- Reply to "add block detail". -/
  waitAddBlock : BlockDetail → WaitResult Reply
  /-- Reply to "tx hash list": the hashes storage already holds. -/
  waitTxHashList : List Hash → WaitResult (List Hash)

/-- Model of the `BaseClient` struct. `qclient` is `true` once the bus client
is bound (non-nil); `once` is the done flag of `sync.Once`; `currentBlock`
is `none` for a nil pointer. -/
structure BaseClient where
  qclient : Bool
  minerStart : Int
  once : Bool
  Cfg : Consensus
  currentBlock : Option Block
  trace : List Obs
  deriving DecidableEq, Repr

/-- Result of an operation: a value and the client after it, or a panic. -/
inductive Outcome (α : Type) where
  | ok (val : α) (s : BaseClient)
  | panic (msg : String) (s : BaseClient)
  deriving DecidableEq, Repr

/-- The client an outcome ends in. -/
def Outcome.state {α : Type} : Outcome α → BaseClient
  | .ok _ s => s
  | .panic _ s => s

/-- Whether the outcome is a panic. -/
def Outcome.isPanic {α : Type} : Outcome α → Bool
  | .ok _ _ => false
  | .panic _ _ => true

/-- Ghost: append an observation to the trace. -/
def BaseClient.log (s : BaseClient) (o : Obs) : BaseClient :=
  { s with trace := s.trace ++ [o] }

/-- The package variable `zeroHash [32]byte`. -/
def zeroHash : List Byte := List.replicate 32 0

/-! ## Current-block cache -/

/-- Model of `BaseClient.SetCurrentBlock`. -/
def SetCurrentBlock (s : BaseClient) (b : Block) : BaseClient :=
  match s.currentBlock with
  | none => { s with currentBlock := some b }
  | some cur =>
    if cur.Height ≤ b.Height then { s with currentBlock := some b } else s

/-- Model of `BaseClient.GetCurrentBlock`. -/
def GetCurrentBlock (s : BaseClient) : Option Block :=
  s.currentBlock

/-- Model of `BaseClient.GetCurrentHeight`; `none` is the nil-pointer panic
on an empty cache. -/
def GetCurrentHeight (s : BaseClient) : Option Int :=
  match s.currentBlock with
  | none => none
  | some cur => some cur.Height

/-! ## Transaction de-duplication -/

/-- Model of the Go map `map[string]*types.Transaction`: a list of bindings
with pairwise distinct keys. Its iteration order is not part of the model;
see `CheckTxDup`. -/
abbrev TxMap := List (Hash × Transaction)

/-- Model of `txMap[k] = v`: any binding of `k` is replaced. -/
def TxMap.set (m : TxMap) (k : Hash) (v : Transaction) : TxMap :=
  m.filter (fun e => e.1 ≠ k) ++ [(k, v)]

/-- Model of `delete(txMap, k)`. -/
def TxMap.delete (m : TxMap) (k : Hash) : TxMap :=
  m.filter (fun e => e.1 ≠ k)

/-- The map built by the first loop of `CheckTxDup`. -/
def buildTxMap (env : Env) (txs : List Transaction) : TxMap :=
  txs.foldl (fun m tx => TxMap.set m (env.hash tx) tx) []

/-- Model of `BaseClient.CheckTxDup`. `rangeOrder` stands for the order in
which `for _, tx := range txMap` visits the map, which Go leaves unspecified;
the error returned by `Wait` is discarded, as in the source. -/
def CheckTxDup (env : Env) (rangeOrder : TxMap → TxMap) (s : BaseClient)
    (txs : List Transaction) : Outcome (List Transaction) :=
  let checkHashList := txs.map env.hash
  let txMap := buildTxMap env txs
  if s.qclient = false then .panic "nil pointer dereference" s
  else
    let s1 := s.log (.send "blockchain" (.EventTxHashList checkHashList))
    match (env.waitTxHashList checkHashList).data with
    | none => .panic "interface conversion" s1
    | some dupTxs =>
      .ok ((rangeOrder (dupTxs.foldl TxMap.delete txMap)).map Prod.snd) s1

/-! ## Mining flag -/

/-- Model of `BaseClient.IsMining`. -/
def IsMining (s : BaseClient) : Bool :=
  decide (s.minerStart = 1)

/-- Model of `atomic.CompareAndSwapInt32(&client.minerStart, old, new)`:
whether the swap happened, and the client afterwards. -/
def CompareAndSwapMinerStart (s : BaseClient) (old new : Int) : Bool × BaseClient :=
  if s.minerStart = old then
    (true, ({ s with minerStart := new }).log (.swapMinerStart old new))
  else (false, s)

/-! ## Requests to chain storage -/

/-- Model of `BaseClient.getInitHeight`. The reply's data is read before the
error is tested, as in the source. -/
def getInitHeight (env : Env) (s : BaseClient) : Outcome Int :=
  if s.qclient = false then .panic "nil pointer dereference" s
  else
    let s1 := s.log (.send "blockchain" .EventGetBlockHeight)
    match env.waitHeight.data with
    | none => .panic "interface conversion" s1
    | some h =>
      match env.waitHeight.err with
      | some _ => .panic "error happens when get height from blockchain" s1
      | none => .ok h s1

/-- Model of `BaseClient.RequestBlock`. -/
def RequestBlock (env : Env) (s : BaseClient) (start : Int) : Outcome Block :=
  if s.qclient = false then .panic "client not bind message queue." s
  else
    let s1 := s.log (.send "blockchain" (.EventGetBlocks start start false))
    match (env.waitBlocks start start).err with
    | some e => .panic e s1
    | none =>
      match (env.waitBlocks start start).data with
      | none => .panic "interface conversion" s1
      | some [] => .panic "index out of range" s1
      | some (d :: _) => .ok d.Block s1

/-! ## Block write pipeline -/

/-- Model of `BaseClient.WriteBlock`. The value is the returned `error`:
`none` for nil, `some text` for an error with that text. After the call to
`util.ExecBlock` the variable `block` of the source denotes `executed.block`,
the candidate as the engine left it, and that is what `SetCurrentBlock`
receives. -/
def WriteBlock (env : Env) (s : BaseClient) (prevHash : List Byte) (block : Block) :
    Outcome (Option String) :=
  let s0 := (s.log (.enterWriteBlock prevHash block)).log (.enterExecBlock prevHash block)
  match env.ExecBlock prevHash block with
  | .error e => .panic e s0
  | .ok executed =>
    if executed.detail.Block.Txs.length = 0 then .ok (some "ErrNoTxs") s0
    else if s0.qclient = false then .panic "nil pointer dereference" s0
    else
      let s1 := s0.log (.send "blockchain" (.EventAddBlockDetail executed.detail))
      match (env.waitAddBlock executed.detail).err with
      | some e => .ok (some e) s1
      | none =>
        match (env.waitAddBlock executed.detail).data with
        | none => .panic "interface conversion" s1
        | some reply =>
          if reply.IsOk then .ok none (SetCurrentBlock s1 executed.block)
          else .ok (some reply.Msg) s1

/-! ## Startup -/

/-- The block `initBlock` builds when the chain is empty. -/
def genesisBlock (env : Env) (s : BaseClient) : Block :=
  { Height := 0
    BlockTime := s.Cfg.GenesisBlockTime
    ParentHash := zeroHash
    Txs := env.CreateGenesisTx
    TxHash := env.CalcMerkleRoot env.CreateGenesisTx }

/-- Model of `BaseClient.initBlock`. The error `WriteBlock` returns is
dropped, as in the source. `genesisBlock` is the value of `newblock` when
`WriteBlock` is entered. -/
def initBlock (env : Env) (s : BaseClient) : Outcome Unit :=
  match getInitHeight env (s.log .enterInitBlock) with
  | .panic e s1 => .panic e s1
  | .ok height s1 =>
    if height = -1 then
      match WriteBlock env s1 zeroHash (genesisBlock env s1) with
      | .panic e s2 => .panic e s2
      | .ok _ s2 => .ok () s2
    else
      match RequestBlock env s1 height with
      | .panic e s2 => .panic e s2
      | .ok block s2 => .ok () (SetCurrentBlock s2 block)

/-- Model of `client.once.Do(f)`: `f` runs only while the latch is open, and
the latch is closed when `f` returns or panics. -/
def onceDo (s : BaseClient) (f : BaseClient → Outcome Unit) : Outcome Unit :=
  if s.once then .ok () s
  else
    match f s with
    | .ok _ s1 => .ok () { s1 with once := true }
    | .panic e s1 => .panic e { s1 with once := true }

/-- Model of `NewBaseClient`. -/
def NewBaseClient (cfg : Consensus) : BaseClient :=
  { qclient := false
    minerStart := if cfg.Minerstart then 1 else 0
    once := false
    Cfg := cfg
    currentBlock := none
    trace := [] }

/-- Model of `BaseClient.SetQueue`, up to the point where it starts the event
loop and the child's production loop. -/
def SetQueue (env : Env) (s : BaseClient) : Outcome Unit :=
  let s1 := { s with qclient := true }
  if s1.minerStart = 1 then onceDo s1 (initBlock env) else .ok () s1

/-! ## Event loop -/

/-- A message delivered by `client.qclient.Recv()`. -/
inductive Message where
  | EventAddBlock (detail : BlockDetail)
  | EventMinerStart
  | EventMinerStop
  | other (ty : Int)
  deriving DecidableEq, Repr

/-- A call `msg.ReplyErr(title, err)`; `err = none` is the nil error. -/
abbrev ReplyErr := String × Option Err

/-- Model of the body of the loop in `BaseClient.eventLoop` for one message.
The value is the reply sent for it, if any. -/
def handle (env : Env) (s : BaseClient) : Message → Outcome (Option ReplyErr)
  | .EventAddBlock detail => .ok none (SetCurrentBlock s detail.Block)
  | .EventMinerStart =>
    match CompareAndSwapMinerStart s 0 1 with
    | (false, s1) => .ok (some ("EventMinerStart", some .ErrMinerIsStared)) s1
    | (true, s1) =>
      match onceDo s1 (initBlock env) with
      | .panic e s2 => .panic e s2
      | .ok _ s2 => .ok (some ("EventMinerStart", none)) s2
  | .EventMinerStop =>
    match CompareAndSwapMinerStart s 1 0 with
    | (false, s1) => .ok (some ("EventMinerStop", some .ErrMinerNotStared)) s1
    | (true, s1) => .ok (some ("EventMinerStop", none)) s1
  | .other _ => .ok none s

/-- Model of `BaseClient.eventLoop` on a finite feed: messages are handled one
at a time, in order; a panic ends the loop. -/
def eventLoop (env : Env) : BaseClient → List Message → Outcome Unit
  | s, [] => .ok () s
  | s, m :: ms =>
    match handle env s m with
    | .panic e s1 => .panic e s1
    | .ok _ s1 => eventLoop env s1 ms

/-- A run of the driver: construction, wiring, then a finite feed. -/
def run (env : Env) (cfg : Consensus) (msgs : List Message) : Outcome Unit :=
  match SetQueue env (NewBaseClient cfg) with
  | .panic e s => .panic e s
  | .ok _ s => eventLoop env s msgs

/-- Number of times `initBlock` was entered, read off the trace. -/
def initBlockRuns (s : BaseClient) : Nat :=
  s.trace.count .enterInitBlock

/-- The flag value `0`. -/
def Idle (s : BaseClient) : Prop := s.minerStart = 0

/-- The flag value `1`. -/
def Mining (s : BaseClient) : Prop := s.minerStart = 1

instance (s : BaseClient) : Decidable (Idle s) := by unfold Idle; infer_instance

instance (s : BaseClient) : Decidable (Mining s) := by unfold Mining; infer_instance

/-- The invariant of the map `CheckTxDup` builds from `txs`: keys are pairwise
distinct, every binding is keyed by the hash of its transaction, and every
bound transaction comes from `txs`. -/
def TxMapInv (env : Env) (txs : List Transaction) (m : TxMap) : Prop :=
  (m.map Prod.fst).Nodup ∧ ∀ e ∈ m, e.1 = env.hash e.2 ∧ e.2 ∈ txs

/-- The client right after a successful `CompareAndSwapInt32(&minerStart, 0, 1)`. -/
def started (s : BaseClient) : BaseClient :=
  ({ s with minerStart := 1 }).log (.swapMinerStart 0 1)

/-- The client right after a successful `CompareAndSwapInt32(&minerStart, 1, 0)`. -/
def stopped (s : BaseClient) : BaseClient :=
  ({ s with minerStart := 0 }).log (.swapMinerStart 1 0)

/-- What holds of every client a run reaches under configuration `cfg`: the
flag is 0 or 1, `initBlock` was entered once if the latch is closed and never
otherwise, and the latch is closed exactly when mining was enabled at
construction or some compare-and-swap from 0 to 1 succeeded. -/
def RunInv (cfg : Consensus) (s : BaseClient) : Prop :=
  (s.minerStart = 0 ∨ s.minerStart = 1) ∧
  initBlockRuns s = (if s.once then 1 else 0) ∧
  (s.once = true ↔ (cfg.Minerstart = true ∨ Obs.swapMinerStart 0 1 ∈ s.trace))

/-! ## Concrete data used by the closed statements below -/

/-- A block of the given height holding the given transactions. -/
def blockAt (h : Int) (txs : List Transaction) : Block :=
  { ParentHash := zeroHash, TxHash := [], Height := h, BlockTime := 0, Txs := txs }

/-- A configuration with mining disabled at construction. -/
def cfgIdle : Consensus := { Minerstart := false, GenesisBlockTime := 1514533394 }

/-- A configuration with mining enabled at construction. -/
def cfgMining : Consensus := { Minerstart := true, GenesisBlockTime := 1514533394 }

/-- The block expected at genesis under `cfgIdle` and `cfgMining`: height 0,
a parent hash of 32 zero bytes and the configured genesis time. -/
def genesisWith (txs : List Transaction) (root : Hash) : Block :=
  { ParentHash := List.replicate 32 0, TxHash := root, Height := 0,
    BlockTime := 1514533394, Txs := txs }

/-- A transaction with a one-byte payload. -/
def txOf (n : Byte) : Transaction := { payload := [n] }

/-- A reply that arrived without transport error. -/
def replied {α : Type} (a : α) : WaitResult α := { data := some a, err := none }

/-- A wait that failed in transport: no data, an error. -/
def failed {α : Type} (e : String) : WaitResult α := { data := none, err := some e }

/-- An environment in which the chain is empty and every request succeeds:
hashes are the first payload byte, execution returns the block and leaves the
candidate unchanged, storage accepts every block and reports the hash `[2]`
as a duplicate. -/
def envGenesis : Env :=
  { hash := fun tx => tx.payload.take 1
    CalcMerkleRoot := fun txs => (txs.map Transaction.payload).flatten
    CreateGenesisTx := [txOf 7]
    ExecBlock := fun _ block => .ok { detail := ⟨block, []⟩, block := block }
    waitHeight := replied (-1)
    waitBlocks := fun start _ => replied [{ Block := blockAt start [txOf 1], Receipts := [] }]
    waitAddBlock := fun _ => replied { IsOk := true, Msg := "" }
    waitTxHashList := fun _ => replied [[2]] }

/-- A fresh client with mining disabled, wired to the bus. -/
def wiredIdle : BaseClient := { NewBaseClient cfgIdle with qclient := true }

/-- An environment like `envGenesis` whose execution engine drops every
transaction of the candidate, editing the candidate in place. -/
def envDropAll : Env :=
  { envGenesis with
    ExecBlock := fun _ block =>
      .ok { detail := ⟨{ block with Txs := [] }, []⟩, block := { block with Txs := [] } } }

/-- An environment like `envGenesis` with two genesis transactions, whose
execution engine keeps only the first transaction of the candidate, editing
the candidate in place. -/
def envKeepFirst : Env :=
  { envGenesis with
    CreateGenesisTx := [txOf 7, txOf 8]
    ExecBlock := fun _ block =>
      .ok { detail := ⟨{ block with Txs := block.Txs.take 1 }, []⟩,
            block := { block with Txs := block.Txs.take 1 } } }

/-- An environment like `envGenesis` in which storage rejects every block. -/
def envReject : Env :=
  { envGenesis with waitAddBlock := fun _ => replied { IsOk := false, Msg := "ErrBlockExist" } }

/-- An environment like `envGenesis` in which the wait for the append
acknowledgement fails. -/
def envAckLost : Env :=
  { envGenesis with waitAddBlock := fun _ => failed "ErrTimeout" }

/-- An environment in which storage holds blocks up to height 42. -/
def envResume : Env :=
  { envGenesis with waitHeight := replied 42 }

/-- An environment in which the wait for the height reply fails. -/
def envHeightLost : Env :=
  { envGenesis with waitHeight := failed "ErrTimeout" }

/-- An environment in which the wait for the height reply fails although the
reply carries the height -1. -/
def envHeightStale : Env :=
  { envGenesis with waitHeight := { data := some (-1), err := some "ErrTimeout" } }

/-- An environment in which storage reports height 42 and the wait for the
"get blocks" reply fails. -/
def envBlocksLost : Env :=
  { envResume with waitBlocks := fun _ _ => failed "ErrTimeout" }

/-- An environment like `envGenesis` whose miner produces no genesis
transaction. -/
def envNoGenesisTx : Env :=
  { envGenesis with CreateGenesisTx := [] }

/-! ## Theorems: current-block cache -/

theorem SetCurrentBlock_of_none (s : BaseClient) (b : Block) (h : s.currentBlock = none) :
    SetCurrentBlock s b = { s with currentBlock := some b } := by
  simp [SetCurrentBlock, h]

theorem SetCurrentBlock_of_le (s : BaseClient) (b cur : Block) (h : s.currentBlock = some cur)
    (hle : cur.Height ≤ b.Height) : SetCurrentBlock s b = { s with currentBlock := some b } := by
  simp [SetCurrentBlock, h, hle]

theorem SetCurrentBlock_of_lt (s : BaseClient) (b cur : Block) (h : s.currentBlock = some cur)
    (hlt : b.Height < cur.Height) : SetCurrentBlock s b = s := by
  simp [SetCurrentBlock, h, not_le.mpr hlt]

theorem SetCurrentBlock_trace (s : BaseClient) (b : Block) :
    (SetCurrentBlock s b).trace = s.trace := by
  unfold SetCurrentBlock
  split
  · rfl
  · split <;> rfl

theorem SetCurrentBlock_minerStart (s : BaseClient) (b : Block) :
    (SetCurrentBlock s b).minerStart = s.minerStart := by
  unfold SetCurrentBlock
  split
  · rfl
  · split <;> rfl

theorem SetCurrentBlock_once (s : BaseClient) (b : Block) :
    (SetCurrentBlock s b).once = s.once := by
  unfold SetCurrentBlock
  split
  · rfl
  · split <;> rfl

theorem SetCurrentBlock_qclient (s : BaseClient) (b : Block) :
    (SetCurrentBlock s b).qclient = s.qclient := by
  unfold SetCurrentBlock
  split
  · rfl
  · split <;> rfl

/-- C1. After `SetCurrentBlock s b` the cache holds `b` exactly when the cache
was empty or the cached height is at most the height of `b` (a tie replaces);
in every other case the cached block is the one held before the call. -/
theorem SetCurrentBlock_holds_iff (s : BaseClient) (b : Block) :
    ((SetCurrentBlock s b).currentBlock = some b ↔
      (s.currentBlock = none ∨ ∃ cur, s.currentBlock = some cur ∧ cur.Height ≤ b.Height)) ∧
    (¬ (s.currentBlock = none ∨ ∃ cur, s.currentBlock = some cur ∧ cur.Height ≤ b.Height) →
      (SetCurrentBlock s b).currentBlock = s.currentBlock) := by
  cases hc : s.currentBlock with
  | none => simp [SetCurrentBlock, hc]
  | some cur =>
    by_cases hle : cur.Height ≤ b.Height
    · simp [SetCurrentBlock, hc, hle]
    · have hne : cur ≠ b := fun e => hle (by rw [e])
      simp [SetCurrentBlock, hc, hle, hne]

theorem foldl_SetCurrentBlock_some (bs : List Block) :
    ∀ (s : BaseClient) (c : Block), s.currentBlock = some c →
      ∃ c', (bs.foldl SetCurrentBlock s).currentBlock = some c' ∧
        (c'.Height = c.Height ∨ c'.Height ∈ bs.map Block.Height) ∧
        c.Height ≤ c'.Height ∧ ∀ h ∈ bs.map Block.Height, h ≤ c'.Height := by
  induction bs with
  | nil => intro s c hc; exact ⟨c, by simpa using hc, Or.inl rfl, le_refl _, by simp⟩
  | cons b bs ih =>
    intro s c hc
    by_cases hle : c.Height ≤ b.Height
    · obtain ⟨c', h1, h2, h3, h4⟩ := ih (SetCurrentBlock s b) b
        (by rw [SetCurrentBlock_of_le s b c hc hle])
      refine ⟨c', by simpa using h1, ?_, le_trans hle h3, ?_⟩
      · rcases h2 with h2 | h2
        · right; simp [h2]
        · right; simp only [List.map_cons, List.mem_cons]; exact Or.inr h2
      · intro h hh
        simp only [List.map_cons, List.mem_cons] at hh
        rcases hh with rfl | hh
        · exact h3
        · exact h4 h hh
    · have hlt : b.Height < c.Height := not_le.mp hle
      obtain ⟨c', h1, h2, h3, h4⟩ := ih (SetCurrentBlock s b) c
        (by rw [SetCurrentBlock_of_lt s b c hc hlt]; exact hc)
      refine ⟨c', by simpa using h1, ?_, h3, ?_⟩
      · rcases h2 with h2 | h2
        · exact Or.inl h2
        · right; simp only [List.map_cons, List.mem_cons]; exact Or.inr h2
      · intro h hh
        simp only [List.map_cons, List.mem_cons] at hh
        rcases hh with rfl | hh
        · exact le_trans (le_of_lt hlt) h3
        · exact h4 h hh

/-- C2. After any non-empty sequence of `SetCurrentBlock` calls on an empty
cache, `GetCurrentHeight` returns the maximum of the heights passed; and on a
populated cache a call with a strictly lower height leaves `GetCurrentHeight`
unchanged. -/
theorem GetCurrentHeight_after_calls (s : BaseClient) (bs : List Block)
    (hempty : s.currentBlock = none) (hne : bs ≠ []) :
    (∃ m, GetCurrentHeight (bs.foldl SetCurrentBlock s) = some m ∧
      m ∈ bs.map Block.Height ∧ ∀ h ∈ bs.map Block.Height, h ≤ m) ∧
    (∀ (t : BaseClient) (cur b : Block), t.currentBlock = some cur →
      b.Height < cur.Height →
      GetCurrentHeight (SetCurrentBlock t b) = GetCurrentHeight t) := by
  constructor
  · cases bs with
    | nil => exact absurd rfl hne
    | cons b bs =>
      obtain ⟨c', h1, h2, h3, h4⟩ := foldl_SetCurrentBlock_some bs (SetCurrentBlock s b) b
        (by rw [SetCurrentBlock_of_none s b hempty])
      refine ⟨c'.Height, ?_, ?_, ?_⟩
      · simp only [List.foldl_cons, GetCurrentHeight, h1]
      · simp only [List.map_cons, List.mem_cons]
        rcases h2 with h2 | h2
        · exact Or.inl h2
        · exact Or.inr h2
      · intro h hh
        simp only [List.map_cons, List.mem_cons] at hh
        rcases hh with rfl | hh
        · exact h3
        · exact h4 h hh
  · intro t cur b hc hlt
    rw [SetCurrentBlock_of_lt t b cur hc hlt]

/-- C2 at a concrete input: heights 3, 7, 5 on a fresh client. -/
theorem GetCurrentHeight_after_calls_witness :
    GetCurrentHeight ([blockAt 3 [], blockAt 7 [], blockAt 5 []].foldl SetCurrentBlock
      (NewBaseClient cfgIdle)) = some 7 ∧
    (∃ m, GetCurrentHeight
        ([blockAt 3 [], blockAt 7 [], blockAt 5 []].foldl SetCurrentBlock
          (NewBaseClient cfgIdle)) = some m ∧
      m ∈ [blockAt 3 [], blockAt 7 [], blockAt 5 []].map Block.Height ∧
      ∀ h ∈ [blockAt 3 [], blockAt 7 [], blockAt 5 []].map Block.Height, h ≤ m) ∧
    (∀ (t : BaseClient) (cur b : Block), t.currentBlock = some cur →
      b.Height < cur.Height →
      GetCurrentHeight (SetCurrentBlock t b) = GetCurrentHeight t) :=
  ⟨by decide, GetCurrentHeight_after_calls (NewBaseClient cfgIdle)
    [blockAt 3 [], blockAt 7 [], blockAt 5 []] rfl (by simp)⟩

/-! ## Theorems: transaction de-duplication -/

theorem TxMap.mem_set (m : TxMap) (k : Hash) (v : Transaction) (e : Hash × Transaction) :
    e ∈ TxMap.set m k v ↔ (e ∈ m ∧ e.1 ≠ k) ∨ e = (k, v) := by
  simp [TxMap.set, List.mem_filter]

theorem TxMap.mem_delete (m : TxMap) (k : Hash) (e : Hash × Transaction) :
    e ∈ TxMap.delete m k ↔ e ∈ m ∧ e.1 ≠ k := by
  simp [TxMap.delete, List.mem_filter]

theorem TxMap.keys_delete_nodup (m : TxMap) (k : Hash) (h : (m.map Prod.fst).Nodup) :
    ((TxMap.delete m k).map Prod.fst).Nodup :=
  List.Nodup.sublist (List.Sublist.map Prod.fst (List.filter_sublist m)) h

theorem TxMap.keys_set_nodup (m : TxMap) (k : Hash) (v : Transaction)
    (h : (m.map Prod.fst).Nodup) : ((TxMap.set m k v).map Prod.fst).Nodup := by
  have h1 : ((m.filter (fun e => e.1 ≠ k)).map Prod.fst).Nodup :=
    List.Nodup.sublist (List.Sublist.map Prod.fst (List.filter_sublist m)) h
  have h2 : k ∉ (m.filter (fun e => e.1 ≠ k)).map Prod.fst := by
    simp [List.mem_filter]
  simp only [TxMap.set, List.map_append, List.map_cons, List.map_nil]
  refine List.Nodup.append h1 (by simp) ?_
  intro x hx hx2
  simp only [List.mem_singleton] at hx2
  subst hx2
  exact h2 hx

theorem foldl_set_inv (env : Env) (all : List Transaction) (txs : List Transaction) :
    ∀ m : TxMap, TxMapInv env all m → (∀ tx ∈ txs, tx ∈ all) →
      TxMapInv env all (txs.foldl (fun m tx => TxMap.set m (env.hash tx) tx) m) ∧
      ∀ k, k ∈ (txs.foldl (fun m tx => TxMap.set m (env.hash tx) tx) m).map Prod.fst ↔
        k ∈ m.map Prod.fst ∨ k ∈ txs.map env.hash := by
  induction txs with
  | nil => intro m hm _; exact ⟨hm, by simp⟩
  | cons tx txs ih =>
    intro m hm hall
    have hinv : TxMapInv env all (TxMap.set m (env.hash tx) tx) := by
      refine ⟨TxMap.keys_set_nodup m _ _ hm.1, ?_⟩
      intro e he
      rcases (TxMap.mem_set m _ _ e).mp he with ⟨he1, _⟩ | rfl
      · exact hm.2 e he1
      · exact ⟨rfl, hall tx (List.mem_cons_self _ _)⟩
    obtain ⟨h1, h2⟩ := ih (TxMap.set m (env.hash tx) tx) hinv
      (fun t ht => hall t (List.mem_cons_of_mem _ ht))
    refine ⟨h1, ?_⟩
    intro k
    rw [List.foldl_cons, h2 k]
    simp only [List.mem_map, TxMap.mem_set, List.mem_cons]
    constructor
    · rintro (⟨e, (⟨he, _⟩ | rfl), rfl⟩ | ⟨t, ht, rfl⟩)
      · exact Or.inl ⟨e, he, rfl⟩
      · exact Or.inr ⟨tx, Or.inl rfl, rfl⟩
      · exact Or.inr ⟨t, Or.inr ht, rfl⟩
    · rintro (⟨e, he, rfl⟩ | ⟨t, (rfl | ht), rfl⟩)
      · by_cases hk : e.1 = env.hash tx
        · exact Or.inl ⟨(env.hash tx, tx), Or.inr rfl, hk.symm⟩
        · exact Or.inl ⟨e, Or.inl ⟨he, hk⟩, rfl⟩
      · exact Or.inl ⟨(env.hash t, t), Or.inr rfl, rfl⟩
      · exact Or.inr ⟨t, ht, rfl⟩

theorem foldl_delete_inv (env : Env) (all : List Transaction) (dup : List Hash) :
    ∀ m : TxMap, TxMapInv env all m →
      TxMapInv env all (dup.foldl TxMap.delete m) ∧
      ∀ e, e ∈ dup.foldl TxMap.delete m ↔ e ∈ m ∧ e.1 ∉ dup := by
  induction dup with
  | nil => intro m hm; exact ⟨hm, by simp⟩
  | cons d dup ih =>
    intro m hm
    have hinv : TxMapInv env all (TxMap.delete m d) :=
      ⟨TxMap.keys_delete_nodup m d hm.1,
        fun e he => hm.2 e ((TxMap.mem_delete m d e).mp he).1⟩
    obtain ⟨h1, h2⟩ := ih (TxMap.delete m d) hinv
    refine ⟨h1, ?_⟩
    intro e
    rw [List.foldl_cons, h2 e, TxMap.mem_delete]
    simp only [List.mem_cons, not_or]
    tauto

theorem TxMapInv_values (env : Env) (all : List Transaction) (m : TxMap)
    (hm : TxMapInv env all m) : (m.map Prod.snd).map env.hash = m.map Prod.fst := by
  rw [List.map_map]
  apply List.map_congr_left
  intro e he
  exact (hm.2 e he).1.symm

/-- C3. For every batch `txs` and every duplicate report `dup` that storage
returns, `CheckTxDup` returns a list whose hashes are exactly the hashes of
`txs` that are not in `dup`, with no hash twice, whatever order the map is
visited in; every returned transaction is one of `txs`. The report need not
be a subset of the batch's hashes. -/
theorem CheckTxDup_spec (env : Env) (rangeOrder : TxMap → TxMap) (s : BaseClient)
    (txs : List Transaction) (dup : List Hash)
    (hrange : ∀ m, (rangeOrder m).Perm m) (hq : s.qclient = true)
    (hdup : (env.waitTxHashList (txs.map env.hash)).data = some dup) :
    ∃ res s1, CheckTxDup env rangeOrder s txs = .ok res s1 ∧
      (∀ h, h ∈ res.map env.hash ↔ h ∈ txs.map env.hash ∧ h ∉ dup) ∧
      (res.map env.hash).Nodup ∧ (∀ tx ∈ res, tx ∈ txs) ∧
      s1.currentBlock = s.currentBlock := by
  obtain ⟨hb, hkeys⟩ := foldl_set_inv env txs txs [] ⟨by simp, by simp⟩ (fun _ h => h)
  obtain ⟨hd, hmem⟩ := foldl_delete_inv env txs dup _ hb
  have hperm := hrange (dup.foldl TxMap.delete (buildTxMap env txs))
  have hinvp : TxMapInv env txs (rangeOrder (dup.foldl TxMap.delete (buildTxMap env txs))) :=
    ⟨(List.Perm.nodup_iff (List.Perm.map Prod.fst hperm)).mpr hd.1,
      fun e he => hd.2 e ((List.Perm.mem_iff hperm).mp he)⟩
  refine ⟨(rangeOrder (dup.foldl TxMap.delete (buildTxMap env txs))).map Prod.snd,
    s.log (.send "blockchain" (.EventTxHashList (txs.map env.hash))),
    by simp [CheckTxDup, hq, hdup], ?_, ?_, ?_, rfl⟩
  · intro h
    rw [TxMapInv_values env txs _ hinvp, List.Perm.mem_iff (List.Perm.map Prod.fst hperm)]
    constructor
    · intro hh
      obtain ⟨e, he, rfl⟩ := List.mem_map.mp hh
      have he2 := (hmem e).mp he
      refine ⟨?_, he2.2⟩
      have := (hkeys e.1).mp (List.mem_map.mpr ⟨e, he2.1, rfl⟩)
      simpa using this
    · rintro ⟨h1, h2⟩
      have := (hkeys h).mpr (Or.inr h1)
      obtain ⟨e, he, rfl⟩ := List.mem_map.mp this
      exact List.mem_map.mpr ⟨e, (hmem e).mpr ⟨he, h2⟩, rfl⟩
  · rw [TxMapInv_values env txs _ hinvp]
    exact hinvp.1
  · intro tx htx
    obtain ⟨e, he, rfl⟩ := List.mem_map.mp htx
    exact (hinvp.2 e he).2

/-- C3 at a concrete input: two transactions share the hash `[1]`, the hash
`[2]` is reported as a duplicate, and the map is visited in reverse. -/
theorem CheckTxDup_spec_witness :
    CheckTxDup envGenesis List.reverse wiredIdle
        [⟨[1, 0]⟩, ⟨[2]⟩, ⟨[1, 9]⟩, ⟨[3]⟩] =
      .ok [⟨[3]⟩, ⟨[1, 9]⟩]
        (wiredIdle.log (.send "blockchain" (.EventTxHashList [[1], [2], [1], [3]]))) ∧
    ∃ res s1, CheckTxDup envGenesis List.reverse wiredIdle
        [⟨[1, 0]⟩, ⟨[2]⟩, ⟨[1, 9]⟩, ⟨[3]⟩] = .ok res s1 ∧
      (∀ h, h ∈ res.map envGenesis.hash ↔
        h ∈ ([⟨[1, 0]⟩, ⟨[2]⟩, ⟨[1, 9]⟩, ⟨[3]⟩] : List Transaction).map envGenesis.hash ∧
          h ∉ [([2] : Hash)]) ∧
      (res.map envGenesis.hash).Nodup ∧
      (∀ tx ∈ res, tx ∈ ([⟨[1, 0]⟩, ⟨[2]⟩, ⟨[1, 9]⟩, ⟨[3]⟩] : List Transaction)) ∧
      s1.currentBlock = wiredIdle.currentBlock :=
  ⟨by decide,
    CheckTxDup_spec envGenesis List.reverse wiredIdle [⟨[1, 0]⟩, ⟨[2]⟩, ⟨[1, 9]⟩, ⟨[3]⟩] [[2]]
      (fun m => List.reverse_perm m) rfl rfl⟩

/-! ## Theorems: block write pipeline -/

theorem log_trace (s : BaseClient) (o : Obs) : (s.log o).trace = s.trace ++ [o] := rfl

theorem log_currentBlock (s : BaseClient) (o : Obs) :
    (s.log o).currentBlock = s.currentBlock := rfl

theorem log_qclient (s : BaseClient) (o : Obs) : (s.log o).qclient = s.qclient := rfl

theorem log_minerStart (s : BaseClient) (o : Obs) : (s.log o).minerStart = s.minerStart := rfl

theorem log_once (s : BaseClient) (o : Obs) : (s.log o).once = s.once := rfl

theorem log_Cfg (s : BaseClient) (o : Obs) : (s.log o).Cfg = s.Cfg := rfl

theorem SetCurrentBlock_log (s : BaseClient) (o : Obs) (b : Block) :
    (SetCurrentBlock (s.log o) b).currentBlock = (SetCurrentBlock s b).currentBlock := by
  unfold SetCurrentBlock
  rw [log_currentBlock]
  split
  · rfl
  · split <;> rfl

/-- What `WriteBlock` adds to the trace: its own entry, the entry of
`util.ExecBlock`, and at most one "add block detail" request, which carries
the executed block and is sent only when that block has a transaction. -/
theorem WriteBlock_trace (env : Env) (s : BaseClient) (prevHash : List Byte) (block : Block) :
    ∃ rest, (WriteBlock env s prevHash block).state.trace =
        s.trace ++ [.enterWriteBlock prevHash block, .enterExecBlock prevHash block] ++ rest ∧
      (rest = [] ∨ ∃ r, env.ExecBlock prevHash block = .ok r ∧ r.detail.Block.Txs ≠ [] ∧
        rest = [.send "blockchain" (.EventAddBlockDetail r.detail)]) := by
  unfold WriteBlock
  cases hexec : env.ExecBlock prevHash block with
  | error e => exact ⟨[], by simp [Outcome.state, log_trace], Or.inl rfl⟩
  | ok r =>
    by_cases htx : r.detail.Block.Txs.length = 0
    · exact ⟨[], by simp [Outcome.state, log_trace, htx], Or.inl rfl⟩
    · have hne : r.detail.Block.Txs ≠ [] := fun h => htx (by simp [h])
      by_cases hq : s.qclient = false
      · exact ⟨[], by simp [Outcome.state, log_trace, htx, log_qclient, hq], Or.inl rfl⟩
      · refine ⟨[.send "blockchain" (.EventAddBlockDetail r.detail)], ?_,
          Or.inr ⟨r, rfl, hne, rfl⟩⟩
        simp only [htx, log_qclient, hq, if_false]
        cases (env.waitAddBlock r.detail).err with
        | some e => simp [Outcome.state, log_trace]
        | none =>
          cases (env.waitAddBlock r.detail).data with
          | none => simp [Outcome.state, log_trace]
          | some reply =>
            by_cases hok : reply.IsOk = true
            · simp [Outcome.state, log_trace, hok, SetCurrentBlock_trace]
            · simp [Outcome.state, log_trace, hok]

/-- C5. If the executed block carries no transaction, `WriteBlock` returns the
error "ErrNoTxs", sends nothing and leaves the cache as it was; and whatever
the inputs, every "add block detail" request `WriteBlock` sends carries a
block with at least one transaction. -/
theorem WriteBlock_no_txs (env : Env) (s : BaseClient) (prevHash : List Byte) (block : Block)
    (r : Executed) (hexec : env.ExecBlock prevHash block = .ok r)
    (htx : r.detail.Block.Txs = []) :
    (∃ s1, WriteBlock env s prevHash block = .ok (some "ErrNoTxs") s1 ∧
      s1.currentBlock = s.currentBlock ∧
      s1.trace = s.trace ++ [.enterWriteBlock prevHash block, .enterExecBlock prevHash block]) ∧
    (∀ (env2 : Env) (t : BaseClient) (p : List Byte) (b : Block), ∃ added,
      (WriteBlock env2 t p b).state.trace = t.trace ++ added ∧
      ∀ topic d, Obs.send topic (.EventAddBlockDetail d) ∈ added → d.Block.Txs ≠ []) := by
  constructor
  · exact ⟨(s.log (.enterWriteBlock prevHash block)).log (.enterExecBlock prevHash block),
      by simp [WriteBlock, hexec, htx], rfl, by simp [log_trace]⟩
  · intro env2 t p b
    obtain ⟨rest, h1, h2⟩ := WriteBlock_trace env2 t p b
    refine ⟨[.enterWriteBlock p b, .enterExecBlock p b] ++ rest, by simp [h1], ?_⟩
    intro topic d hd
    rcases h2 with rfl | ⟨r2, _, hne, rfl⟩
    · simp at hd
    · simp at hd
      rw [hd.2]
      exact hne

/-- C5 at a concrete input: the engine drops the only transaction. -/
theorem WriteBlock_no_txs_witness :
    (∃ s1, WriteBlock envDropAll wiredIdle zeroHash (blockAt 1 [txOf 4]) =
        .ok (some "ErrNoTxs") s1 ∧
      s1.currentBlock = wiredIdle.currentBlock ∧
      s1.trace = wiredIdle.trace ++
        [.enterWriteBlock zeroHash (blockAt 1 [txOf 4]),
          .enterExecBlock zeroHash (blockAt 1 [txOf 4])]) ∧
    (∀ (env2 : Env) (t : BaseClient) (p : List Byte) (b : Block), ∃ added,
      (WriteBlock env2 t p b).state.trace = t.trace ++ added ∧
      ∀ topic d, Obs.send topic (.EventAddBlockDetail d) ∈ added → d.Block.Txs ≠ []) :=
  WriteBlock_no_txs envDropAll wiredIdle zeroHash (blockAt 1 [txOf 4])
    { detail := ⟨blockAt 1 [], []⟩, block := blockAt 1 [] } rfl rfl

/-- The accepted case of `WriteBlock`, with the resulting client spelled out. -/
theorem WriteBlock_accept (env : Env) (s : BaseClient) (prevHash : List Byte) (block : Block)
    (r : Executed) (reply : Reply) (hq : s.qclient = true)
    (hexec : env.ExecBlock prevHash block = .ok r) (hne : r.detail.Block.Txs ≠ [])
    (herr : (env.waitAddBlock r.detail).err = none)
    (hdata : (env.waitAddBlock r.detail).data = some reply)
    (hok : reply.IsOk = true) :
    WriteBlock env s prevHash block = .ok none
      (SetCurrentBlock (((s.log (.enterWriteBlock prevHash block)).log
        (.enterExecBlock prevHash block)).log
          (.send "blockchain" (.EventAddBlockDetail r.detail)))
        r.block) := by
  have hlen : ¬ r.detail.Block.Txs.length = 0 := fun h => hne (List.length_eq_zero.mp h)
  simp [WriteBlock, hexec, hlen, log_qclient, hq, herr, hdata, hok]

/-- C6. For a wired client and a candidate whose executed block is non-empty:
when the acknowledgement arrives and says OK, `WriteBlock` returns nil and the
cache is `SetCurrentBlock`, on the cache held before, of the block the source
passes to it: the candidate as it stands after execution (`r.block`), which is
the candidate as passed whenever the engine did not edit it. When the
acknowledgement arrives and does not say OK, `WriteBlock` returns an error
whose text is the reply's message and the cache is unchanged; when waiting
fails, `WriteBlock` returns that transport error and the cache is unchanged.
In all three cases exactly one "add block detail" request, carrying the
executed block, is sent. -/
theorem WriteBlock_ack (env : Env) (s : BaseClient) (prevHash : List Byte) (block : Block)
    (r : Executed) (hq : s.qclient = true)
    (hexec : env.ExecBlock prevHash block = .ok r) (hne : r.detail.Block.Txs ≠ []) :
    (∀ reply, (env.waitAddBlock r.detail).err = none →
      (env.waitAddBlock r.detail).data = some reply →
      (reply.IsOk = true → ∃ s1, WriteBlock env s prevHash block = .ok none s1 ∧
        s1.currentBlock = (SetCurrentBlock s r.block).currentBlock ∧
        (r.block = block → s1.currentBlock = (SetCurrentBlock s block).currentBlock) ∧
        s1.trace = s.trace ++ [.enterWriteBlock prevHash block, .enterExecBlock prevHash block,
          .send "blockchain" (.EventAddBlockDetail r.detail)]) ∧
      (reply.IsOk = false → ∃ s1, WriteBlock env s prevHash block = .ok (some reply.Msg) s1 ∧
        s1.currentBlock = s.currentBlock ∧
        s1.trace = s.trace ++ [.enterWriteBlock prevHash block, .enterExecBlock prevHash block,
          .send "blockchain" (.EventAddBlockDetail r.detail)])) ∧
    (∀ e, (env.waitAddBlock r.detail).err = some e →
      ∃ s1, WriteBlock env s prevHash block = .ok (some e) s1 ∧
        s1.currentBlock = s.currentBlock ∧
        s1.trace = s.trace ++ [.enterWriteBlock prevHash block, .enterExecBlock prevHash block,
          .send "blockchain" (.EventAddBlockDetail r.detail)]) := by
  have hlen : ¬ r.detail.Block.Txs.length = 0 := fun h => hne (List.length_eq_zero.mp h)
  refine ⟨fun reply herr hdata => ⟨fun hok => ?_, fun hok => ?_⟩, fun e herr => ?_⟩
  · refine ⟨SetCurrentBlock (((s.log (.enterWriteBlock prevHash block)).log
        (.enterExecBlock prevHash block)).log
          (.send "blockchain" (.EventAddBlockDetail r.detail)))
        r.block, WriteBlock_accept env s prevHash block r reply hq hexec hne herr hdata hok,
      ?_, ?_, ?_⟩
    · simp [SetCurrentBlock_log]
    · intro hsame
      rw [← hsame]
      simp [SetCurrentBlock_log]
    · simp [SetCurrentBlock_trace, log_trace]
  · exact ⟨((s.log (.enterWriteBlock prevHash block)).log
        (.enterExecBlock prevHash block)).log
          (.send "blockchain" (.EventAddBlockDetail r.detail)),
      by simp [WriteBlock, hexec, hlen, log_qclient, hq, herr, hdata, hok], rfl,
      by simp [log_trace]⟩
  · exact ⟨((s.log (.enterWriteBlock prevHash block)).log
        (.enterExecBlock prevHash block)).log
          (.send "blockchain" (.EventAddBlockDetail r.detail)),
      by simp [WriteBlock, hexec, hlen, log_qclient, hq, herr], rfl,
      by simp [log_trace]⟩

/-- C6 at concrete inputs: storage accepts a block the engine left as passed;
storage accepts a block of which the engine kept one transaction of two, and
the cache holds the one-transaction block; storage rejects with the message
"ErrBlockExist"; the wait fails with "ErrTimeout". -/
theorem WriteBlock_ack_witness :
    (∃ s1, WriteBlock envGenesis wiredIdle zeroHash (blockAt 1 [txOf 4]) = .ok none s1 ∧
      s1.currentBlock = (SetCurrentBlock wiredIdle (blockAt 1 [txOf 4])).currentBlock ∧
      (blockAt 1 [txOf 4] = blockAt 1 [txOf 4] →
        s1.currentBlock = (SetCurrentBlock wiredIdle (blockAt 1 [txOf 4])).currentBlock) ∧
      s1.trace = wiredIdle.trace ++
        [.enterWriteBlock zeroHash (blockAt 1 [txOf 4]),
          .enterExecBlock zeroHash (blockAt 1 [txOf 4]),
          .send "blockchain" (.EventAddBlockDetail ⟨blockAt 1 [txOf 4], []⟩)]) ∧
    (∃ s1, WriteBlock envKeepFirst wiredIdle zeroHash (blockAt 1 [txOf 4, txOf 5]) =
        .ok none s1 ∧
      s1.currentBlock = (SetCurrentBlock wiredIdle (blockAt 1 [txOf 4])).currentBlock ∧
      (blockAt 1 [txOf 4] = blockAt 1 [txOf 4, txOf 5] →
        s1.currentBlock =
          (SetCurrentBlock wiredIdle (blockAt 1 [txOf 4, txOf 5])).currentBlock) ∧
      s1.trace = wiredIdle.trace ++
        [.enterWriteBlock zeroHash (blockAt 1 [txOf 4, txOf 5]),
          .enterExecBlock zeroHash (blockAt 1 [txOf 4, txOf 5]),
          .send "blockchain" (.EventAddBlockDetail ⟨blockAt 1 [txOf 4], []⟩)]) ∧
    (WriteBlock envKeepFirst wiredIdle zeroHash (blockAt 1 [txOf 4, txOf 5])).state.currentBlock =
      some (blockAt 1 [txOf 4]) ∧
    (∃ s1, WriteBlock envReject wiredIdle zeroHash (blockAt 1 [txOf 4]) =
        .ok (some "ErrBlockExist") s1 ∧
      s1.currentBlock = wiredIdle.currentBlock ∧
      s1.trace = wiredIdle.trace ++
        [.enterWriteBlock zeroHash (blockAt 1 [txOf 4]),
          .enterExecBlock zeroHash (blockAt 1 [txOf 4]),
          .send "blockchain" (.EventAddBlockDetail ⟨blockAt 1 [txOf 4], []⟩)]) ∧
    (∃ s1, WriteBlock envAckLost wiredIdle zeroHash (blockAt 1 [txOf 4]) =
        .ok (some "ErrTimeout") s1 ∧
      s1.currentBlock = wiredIdle.currentBlock ∧
      s1.trace = wiredIdle.trace ++
        [.enterWriteBlock zeroHash (blockAt 1 [txOf 4]),
          .enterExecBlock zeroHash (blockAt 1 [txOf 4]),
          .send "blockchain" (.EventAddBlockDetail ⟨blockAt 1 [txOf 4], []⟩)]) :=
  ⟨((WriteBlock_ack envGenesis wiredIdle zeroHash (blockAt 1 [txOf 4])
        ⟨⟨blockAt 1 [txOf 4], []⟩, blockAt 1 [txOf 4]⟩ rfl rfl (by decide)).1
          ⟨true, ""⟩ rfl rfl).1 rfl,
    ((WriteBlock_ack envKeepFirst wiredIdle zeroHash (blockAt 1 [txOf 4, txOf 5])
        ⟨⟨blockAt 1 [txOf 4], []⟩, blockAt 1 [txOf 4]⟩ rfl rfl (by decide)).1
          ⟨true, ""⟩ rfl rfl).1 rfl,
    by decide,
    ((WriteBlock_ack envReject wiredIdle zeroHash (blockAt 1 [txOf 4])
        ⟨⟨blockAt 1 [txOf 4], []⟩, blockAt 1 [txOf 4]⟩ rfl rfl (by decide)).1
          ⟨false, "ErrBlockExist"⟩ rfl rfl).2 rfl,
    (WriteBlock_ack envAckLost wiredIdle zeroHash (blockAt 1 [txOf 4])
        ⟨⟨blockAt 1 [txOf 4], []⟩, blockAt 1 [txOf 4]⟩ rfl rfl (by decide)).2
          "ErrTimeout" rfl⟩

/-- The fields `WriteBlock` never writes. -/
theorem WriteBlock_frame (env : Env) (s : BaseClient) (prevHash : List Byte) (block : Block) :
    (WriteBlock env s prevHash block).state.minerStart = s.minerStart ∧
    (WriteBlock env s prevHash block).state.once = s.once ∧
    (WriteBlock env s prevHash block).state.qclient = s.qclient := by
  unfold WriteBlock
  cases env.ExecBlock prevHash block with
  | error e => simp [Outcome.state, BaseClient.log]
  | ok r =>
    by_cases htx : r.detail.Block.Txs.length = 0
    · simp [Outcome.state, BaseClient.log, htx]
    · by_cases hq : s.qclient = false
      · simp [Outcome.state, log_qclient, htx, hq, BaseClient.log]
      · have hq2 : s.qclient = true := by simpa using hq
        simp only [htx, log_qclient, hq, if_false]
        cases (env.waitAddBlock r.detail).err with
        | some e => simp [Outcome.state, BaseClient.log, hq2]
        | none =>
          cases (env.waitAddBlock r.detail).data with
          | none => simp [Outcome.state, BaseClient.log, hq2]
          | some reply =>
            by_cases hok : reply.IsOk = true
            · simp [Outcome.state, hok, SetCurrentBlock_minerStart, SetCurrentBlock_once,
                SetCurrentBlock_qclient, BaseClient.log, hq2]
            · simp [Outcome.state, hok, BaseClient.log, hq2]

/-! ## Theorems: startup -/

/-- On a wired client `getInitHeight` sends one request; it returns the
reported height when the wait succeeds and panics otherwise. -/
theorem getInitHeight_wired (env : Env) (s : BaseClient) (hq : s.qclient = true) :
    (∀ h, env.waitHeight.data = some h → env.waitHeight.err = none →
      getInitHeight env s = .ok h (s.log (.send "blockchain" .EventGetBlockHeight))) ∧
    ((env.waitHeight.data = none ∨ env.waitHeight.err ≠ none) →
      ∃ msg, getInitHeight env s =
        .panic msg (s.log (.send "blockchain" .EventGetBlockHeight))) := by
  constructor
  · intro h hd he
    simp [getInitHeight, hq, hd, he]
  · intro hfail
    cases hd : env.waitHeight.data with
    | none => exact ⟨"interface conversion", by simp [getInitHeight, hq, hd]⟩
    | some h =>
      cases he : env.waitHeight.err with
      | none => rcases hfail with h1 | h1
                · rw [hd] at h1; cases h1
                · exact absurd he h1
      | some e =>
        exact ⟨"error happens when get height from blockchain",
          by simp [getInitHeight, hq, hd, he]⟩

/-- C10. On a wired client, if the wait for the height reply fails, or the
height reply arrives with a height other than -1 and the wait for the blocks
reply fails, `initBlock` panics; the cache is the one held before, and the
trace shows no `WriteBlock` entry and no request after the failed one. -/
theorem initBlock_transport_failure (env : Env) (s : BaseClient) (hq : s.qclient = true) :
    (∀ e, env.waitHeight.err = some e →
      ∃ msg s1, initBlock env s = .panic msg s1 ∧ s1.currentBlock = s.currentBlock ∧
        s1.trace = s.trace ++ [.enterInitBlock, .send "blockchain" .EventGetBlockHeight]) ∧
    (∀ h e, env.waitHeight.data = some h → env.waitHeight.err = none → h ≠ -1 →
      (env.waitBlocks h h).err = some e →
      ∃ s1, initBlock env s = .panic e s1 ∧ s1.currentBlock = s.currentBlock ∧
        s1.trace = s.trace ++ [.enterInitBlock, .send "blockchain" .EventGetBlockHeight,
          .send "blockchain" (.EventGetBlocks h h false)]) := by
  constructor
  · intro e he
    obtain ⟨msg, hmsg⟩ := (getInitHeight_wired env (s.log .enterInitBlock) hq).2
      (Or.inr (by rw [he]; simp))
    exact ⟨msg, (s.log .enterInitBlock).log (.send "blockchain" .EventGetBlockHeight),
      by simp [initBlock, hmsg], rfl, by simp [log_trace]⟩
  · intro h e hd he hne hb
    have hg := (getInitHeight_wired env (s.log .enterInitBlock) hq).1 h hd he
    exact ⟨((s.log .enterInitBlock).log (.send "blockchain" .EventGetBlockHeight)).log
        (.send "blockchain" (.EventGetBlocks h h false)),
      by simp [initBlock, hg, hne, RequestBlock, log_qclient, hq, hb], rfl,
      by simp [log_trace]⟩

/-- C10 at concrete inputs: the height wait fails with no data; it fails with
a reply that carries -1; the blocks wait fails. -/
theorem initBlock_transport_failure_witness :
    (∃ msg s1, initBlock envHeightLost wiredIdle = .panic msg s1 ∧
      s1.currentBlock = wiredIdle.currentBlock ∧
      s1.trace = wiredIdle.trace ++
        [.enterInitBlock, .send "blockchain" .EventGetBlockHeight]) ∧
    (∃ msg s1, initBlock envHeightStale wiredIdle = .panic msg s1 ∧
      s1.currentBlock = wiredIdle.currentBlock ∧
      s1.trace = wiredIdle.trace ++
        [.enterInitBlock, .send "blockchain" .EventGetBlockHeight]) ∧
    (∃ s1, initBlock envBlocksLost wiredIdle = .panic "ErrTimeout" s1 ∧
      s1.currentBlock = wiredIdle.currentBlock ∧
      s1.trace = wiredIdle.trace ++ [.enterInitBlock, .send "blockchain" .EventGetBlockHeight,
        .send "blockchain" (.EventGetBlocks 42 42 false)]) :=
  ⟨(initBlock_transport_failure envHeightLost wiredIdle rfl).1 "ErrTimeout" rfl,
    (initBlock_transport_failure envHeightStale wiredIdle rfl).1 "ErrTimeout" rfl,
    (initBlock_transport_failure envBlocksLost wiredIdle rfl).2 42 "ErrTimeout" rfl rfl
      (by decide) rfl⟩

/-- The cache after `SetCurrentBlock`, case by case. -/
theorem SetCurrentBlock_cases (s : BaseClient) (b : Block) :
    ((s.currentBlock = none ∨ ∃ cur, s.currentBlock = some cur ∧ cur.Height ≤ b.Height) →
      (SetCurrentBlock s b).currentBlock = some b) ∧
    ((∃ cur, s.currentBlock = some cur ∧ b.Height < cur.Height) →
      (SetCurrentBlock s b).currentBlock = s.currentBlock) := by
  constructor
  · rintro (h | ⟨cur, h, hle⟩)
    · rw [SetCurrentBlock_of_none s b h]
    · rw [SetCurrentBlock_of_le s b cur h hle]
  · rintro ⟨cur, h, hlt⟩
    rw [SetCurrentBlock_of_lt s b cur h hlt]

/-- C9, amended. On a wired client, when storage reports a height `h` other
than -1 and answers the request for the range `[h, h]` with block `B`,
`initBlock` returns after sending exactly the height request and the request
for the block at `h` (no `WriteBlock`, no execution, no "add block detail"),
and the cache is `SetCurrentBlock` of `B` on the cache held before: it holds
`B` when the cache was empty or held a block no higher than `B`, and keeps
the cached block when that block is higher than `B`. -/
theorem initBlock_resume (env : Env) (s : BaseClient) (h : Int) (d : BlockDetail)
    (rest : List BlockDetail) (hq : s.qclient = true)
    (hd : env.waitHeight.data = some h) (he : env.waitHeight.err = none) (hne : h ≠ -1)
    (hbe : (env.waitBlocks h h).err = none)
    (hbd : (env.waitBlocks h h).data = some (d :: rest)) :
    ∃ s1, initBlock env s = .ok () s1 ∧
      s1.trace = s.trace ++ [.enterInitBlock, .send "blockchain" .EventGetBlockHeight,
        .send "blockchain" (.EventGetBlocks h h false)] ∧
      s1.currentBlock = (SetCurrentBlock s d.Block).currentBlock ∧
      ((s.currentBlock = none ∨
          ∃ cur, s.currentBlock = some cur ∧ cur.Height ≤ d.Block.Height) →
        s1.currentBlock = some d.Block) ∧
      ((∃ cur, s.currentBlock = some cur ∧ d.Block.Height < cur.Height) →
        s1.currentBlock = s.currentBlock) := by
  have hg := (getInitHeight_wired env (s.log .enterInitBlock) hq).1 h hd he
  have hcur : (SetCurrentBlock (((s.log .enterInitBlock).log
      (.send "blockchain" .EventGetBlockHeight)).log
        (.send "blockchain" (.EventGetBlocks h h false))) d.Block).currentBlock =
      (SetCurrentBlock s d.Block).currentBlock := by
    simp [SetCurrentBlock_log]
  refine ⟨SetCurrentBlock (((s.log .enterInitBlock).log
      (.send "blockchain" .EventGetBlockHeight)).log
        (.send "blockchain" (.EventGetBlocks h h false))) d.Block,
    by simp [initBlock, hg, hne, RequestBlock, log_qclient, hq, hbe, hbd],
    by simp [SetCurrentBlock_trace, log_trace], hcur, ?_, ?_⟩
  · intro hc
    rw [hcur]
    exact (SetCurrentBlock_cases s d.Block).1 hc
  · intro hc
    rw [hcur]
    exact (SetCurrentBlock_cases s d.Block).2 hc

/-- C9, amended, at a concrete input: storage is at height 42 and the cache
is empty. -/
theorem initBlock_resume_witness :
    ∃ s1, initBlock envResume wiredIdle = .ok () s1 ∧
      s1.trace = wiredIdle.trace ++ [.enterInitBlock, .send "blockchain" .EventGetBlockHeight,
        .send "blockchain" (.EventGetBlocks 42 42 false)] ∧
      s1.currentBlock = (SetCurrentBlock wiredIdle (blockAt 42 [txOf 1])).currentBlock ∧
      ((wiredIdle.currentBlock = none ∨
          ∃ cur, wiredIdle.currentBlock = some cur ∧
            cur.Height ≤ (blockAt 42 [txOf 1]).Height) →
        s1.currentBlock = some (blockAt 42 [txOf 1])) ∧
      ((∃ cur, wiredIdle.currentBlock = some cur ∧
          (blockAt 42 [txOf 1]).Height < cur.Height) →
        s1.currentBlock = wiredIdle.currentBlock) :=
  initBlock_resume envResume wiredIdle 42 ⟨blockAt 42 [txOf 1], []⟩ [] rfl rfl rfl
    (by decide) rfl rfl

/-- C9 as stated fails: a driver built with mining disabled caches an observed
block of height 50, then a start-mining command triggers startup; storage
reports height 42 and returns the block at 42. Startup runs once and requests
that block, yet the cache still holds the block of height 50. -/
theorem initBlock_resume_counterexample :
    envResume.waitHeight.data = some 42 ∧ envResume.waitHeight.err = none ∧
    (envResume.waitBlocks 42 42).data = some [⟨blockAt 42 [txOf 1], []⟩] ∧
    (envResume.waitBlocks 42 42).err = none ∧
    (run envResume cfgIdle
        [.EventAddBlock ⟨blockAt 50 [txOf 5], []⟩, .EventMinerStart]).isPanic = false ∧
    (run envResume cfgIdle
        [.EventAddBlock ⟨blockAt 50 [txOf 5], []⟩, .EventMinerStart]).state.trace =
      [.swapMinerStart 0 1, .enterInitBlock, .send "blockchain" .EventGetBlockHeight,
        .send "blockchain" (.EventGetBlocks 42 42 false)] ∧
    (run envResume cfgIdle
        [.EventAddBlock ⟨blockAt 50 [txOf 5], []⟩, .EventMinerStart]).state.currentBlock =
      some (blockAt 50 [txOf 5]) ∧
    (run envResume cfgIdle
        [.EventAddBlock ⟨blockAt 50 [txOf 5], []⟩, .EventMinerStart]).state.currentBlock ≠
      some (blockAt 42 [txOf 1]) := by
  decide

theorem genesisBlock_log (env : Env) (s : BaseClient) (o : Obs) :
    genesisBlock env (s.log o) = genesisBlock env s := rfl

/-- In the genesis branch `initBlock` ends where its `WriteBlock` call ends. -/
theorem initBlock_genesis_state (env : Env) (s s1 : BaseClient)
    (hg : getInitHeight env (s.log .enterInitBlock) = .ok (-1) s1) :
    (initBlock env s).state = (WriteBlock env s1 zeroHash (genesisBlock env s1)).state := by
  simp only [initBlock, hg, if_true]
  cases WriteBlock env s1 zeroHash (genesisBlock env s1) <;> rfl

/-- C8, amended. On a wired client, when storage reports height -1,
`initBlock` enters `WriteBlock` exactly once, with a parent hash of 32 zero
bytes and the genesis block: height 0, parent hash 32 zero bytes, the
configured genesis time, the miner's genesis transactions and their Merkle
root. If execution returns a non-empty block and storage acknowledges the
append with OK, `initBlock` returns and the cache is `SetCurrentBlock`, on the
cache held before, of that block as it stands after execution (`r.block`), so
an empty cache then holds that block; when the engine left the block as it
was built, an empty cache then holds the genesis block, of height 0 and with
the miner's genesis transactions. -/
theorem initBlock_genesis (env : Env) (s : BaseClient) (hq : s.qclient = true)
    (hd : env.waitHeight.data = some (-1)) (he : env.waitHeight.err = none) :
    ((genesisBlock env s).Height = 0 ∧
      (genesisBlock env s).ParentHash = List.replicate 32 0 ∧
      (genesisBlock env s).BlockTime = s.Cfg.GenesisBlockTime ∧
      (genesisBlock env s).Txs = env.CreateGenesisTx ∧
      (genesisBlock env s).TxHash = env.CalcMerkleRoot env.CreateGenesisTx) ∧
    (∃ rest, (initBlock env s).state.trace =
        s.trace ++ [.enterInitBlock, .send "blockchain" .EventGetBlockHeight,
          .enterWriteBlock (List.replicate 32 0) (genesisBlock env s),
          .enterExecBlock (List.replicate 32 0) (genesisBlock env s)] ++ rest ∧
      (rest = [] ∨ ∃ r, env.ExecBlock zeroHash (genesisBlock env s) = .ok r ∧
        r.detail.Block.Txs ≠ [] ∧
        rest = [.send "blockchain" (.EventAddBlockDetail r.detail)])) ∧
    (∀ r reply, env.ExecBlock zeroHash (genesisBlock env s) = .ok r →
      r.detail.Block.Txs ≠ [] →
      (env.waitAddBlock r.detail).err = none →
      (env.waitAddBlock r.detail).data = some reply →
      reply.IsOk = true →
      ∃ s1, initBlock env s = .ok () s1 ∧
        s1.currentBlock = (SetCurrentBlock s r.block).currentBlock ∧
        (s.currentBlock = none → s1.currentBlock = some r.block) ∧
        (s.currentBlock = none → r.block = genesisBlock env s →
          ∃ c, s1.currentBlock = some c ∧ c = genesisBlock env s ∧ c.Height = 0 ∧
            c.Txs = env.CreateGenesisTx)) := by
  have hg := (getInitHeight_wired env (s.log .enterInitBlock) hq).1 (-1) hd he
  have hst := initBlock_genesis_state env s _ hg
  refine ⟨⟨rfl, rfl, rfl, rfl, rfl⟩, ?_, ?_⟩
  · obtain ⟨rest, h1, h2⟩ := WriteBlock_trace env
      ((s.log .enterInitBlock).log (.send "blockchain" .EventGetBlockHeight)) zeroHash
      (genesisBlock env ((s.log .enterInitBlock).log (.send "blockchain" .EventGetBlockHeight)))
    refine ⟨rest, ?_, ?_⟩
    · rw [hst, h1]
      simp [log_trace, genesisBlock_log, zeroHash]
    · simpa [genesisBlock_log] using h2
  · intro r reply hexec hne herr hdata hok
    have hw := WriteBlock_accept env
      ((s.log .enterInitBlock).log (.send "blockchain" .EventGetBlockHeight)) zeroHash
      (genesisBlock env s) r reply hq hexec hne herr hdata hok
    have hcur : (SetCurrentBlock (((((s.log .enterInitBlock).log
        (.send "blockchain" .EventGetBlockHeight)).log
        (.enterWriteBlock zeroHash (genesisBlock env s))).log
        (.enterExecBlock zeroHash (genesisBlock env s))).log
        (.send "blockchain" (.EventAddBlockDetail r.detail))) r.block).currentBlock =
        (SetCurrentBlock s r.block).currentBlock := by
      simp [SetCurrentBlock_log]
    have hnone : s.currentBlock = none →
        (SetCurrentBlock s r.block).currentBlock = some r.block :=
      fun h => (SetCurrentBlock_cases s r.block).1 (Or.inl h)
    refine ⟨SetCurrentBlock (((((s.log .enterInitBlock).log
        (.send "blockchain" .EventGetBlockHeight)).log
        (.enterWriteBlock zeroHash (genesisBlock env s))).log
        (.enterExecBlock zeroHash (genesisBlock env s))).log
        (.send "blockchain" (.EventAddBlockDetail r.detail))) r.block,
      by simp only [initBlock, hg, if_true, genesisBlock_log, hw], hcur, ?_, ?_⟩
    · intro h
      rw [hcur]
      exact hnone h
    · intro h hsame
      refine ⟨r.block, ?_, hsame, ?_, ?_⟩
      · rw [hcur]
        exact hnone h
      · rw [hsame]; rfl
      · rw [hsame]; rfl

/-- C8, amended, at a concrete input: an empty chain, one genesis
transaction, an engine that leaves the block as built, a fresh wired client. -/
theorem initBlock_genesis_witness :
    initBlock envGenesis wiredIdle =
      .ok () { wiredIdle with
        currentBlock := some (genesisWith [txOf 7] [7])
        trace := [.enterInitBlock, .send "blockchain" .EventGetBlockHeight,
          .enterWriteBlock (List.replicate 32 0) (genesisBlock envGenesis wiredIdle),
          .enterExecBlock (List.replicate 32 0) (genesisBlock envGenesis wiredIdle),
          .send "blockchain"
            (.EventAddBlockDetail ⟨genesisBlock envGenesis wiredIdle, []⟩)] } ∧
    ∃ s1, initBlock envGenesis wiredIdle = .ok () s1 ∧
      s1.currentBlock =
        (SetCurrentBlock wiredIdle (genesisBlock envGenesis wiredIdle)).currentBlock ∧
      (wiredIdle.currentBlock = none →
        s1.currentBlock = some (genesisBlock envGenesis wiredIdle)) ∧
      (wiredIdle.currentBlock = none →
        genesisBlock envGenesis wiredIdle = genesisBlock envGenesis wiredIdle →
        ∃ c, s1.currentBlock = some c ∧ c = genesisBlock envGenesis wiredIdle ∧
          c.Height = 0 ∧ c.Txs = envGenesis.CreateGenesisTx) :=
  ⟨by decide,
    (initBlock_genesis envGenesis wiredIdle rfl rfl rfl).2.2
      ⟨⟨genesisBlock envGenesis wiredIdle, []⟩, genesisBlock envGenesis wiredIdle⟩
      ⟨true, ""⟩ rfl (by decide) rfl rfl rfl⟩

/-- C8 as stated fails. A driver built with mining enabled starts on an empty
chain (height -1). With no genesis transaction the executed block is empty and
`WriteBlock` returns "ErrNoTxs"; with the genesis transaction `tx_g` and a
storage that rejects the append, `WriteBlock` returns the rejection. Either
way `initBlock` drops that error and returns, and the cache is still empty:
it holds no block of height 0. With two genesis transactions, an engine that
keeps the first one in place and a storage that accepts, the cache holds a
block of height 0 that lacks the second genesis transaction. -/
theorem initBlock_genesis_counterexample :
    (envNoGenesisTx.waitHeight.data = some (-1) ∧ envNoGenesisTx.waitHeight.err = none ∧
      (run envNoGenesisTx cfgMining []).isPanic = false ∧
      (run envNoGenesisTx cfgMining []).state.trace =
        [.enterInitBlock, .send "blockchain" .EventGetBlockHeight,
          .enterWriteBlock (List.replicate 32 0) (genesisWith [] []),
          .enterExecBlock (List.replicate 32 0) (genesisWith [] [])] ∧
      (run envNoGenesisTx cfgMining []).state.currentBlock = none) ∧
    (envReject.waitHeight.data = some (-1) ∧ envReject.waitHeight.err = none ∧
      envReject.CreateGenesisTx = [txOf 7] ∧
      (run envReject cfgMining []).isPanic = false ∧
      (run envReject cfgMining []).state.trace =
        [.enterInitBlock, .send "blockchain" .EventGetBlockHeight,
          .enterWriteBlock (List.replicate 32 0) (genesisWith [txOf 7] [7]),
          .enterExecBlock (List.replicate 32 0) (genesisWith [txOf 7] [7]),
          .send "blockchain" (.EventAddBlockDetail ⟨genesisWith [txOf 7] [7], []⟩)] ∧
      (run envReject cfgMining []).state.currentBlock = none) ∧
    (envKeepFirst.waitHeight.data = some (-1) ∧ envKeepFirst.waitHeight.err = none ∧
      envKeepFirst.CreateGenesisTx = [txOf 7, txOf 8] ∧
      (run envKeepFirst cfgMining []).isPanic = false ∧
      (run envKeepFirst cfgMining []).state.trace =
        [.enterInitBlock, .send "blockchain" .EventGetBlockHeight,
          .enterWriteBlock (List.replicate 32 0) (genesisWith [txOf 7, txOf 8] [7, 8]),
          .enterExecBlock (List.replicate 32 0) (genesisWith [txOf 7, txOf 8] [7, 8]),
          .send "blockchain"
            (.EventAddBlockDetail ⟨genesisWith [txOf 7] [7, 8], []⟩)] ∧
      (run envKeepFirst cfgMining []).state.currentBlock =
        some (genesisWith [txOf 7] [7, 8]) ∧
      txOf 8 ∉ (genesisWith [txOf 7] [7, 8]).Txs) := by
  decide

/-! ## Theorems: event loop, mining flag and startup latch -/

/-- What `initBlock` leaves alone and what it adds to the trace: its own entry
first, then only requests and entries of `WriteBlock` and `util.ExecBlock`. -/
theorem initBlock_summary (env : Env) (s : BaseClient) :
    (initBlock env s).state.minerStart = s.minerStart ∧
    (initBlock env s).state.once = s.once ∧
    ∃ added, (initBlock env s).state.trace = s.trace ++ .enterInitBlock :: added ∧
      ∀ o ∈ added, o ≠ .enterInitBlock ∧ ∀ a b, o ≠ .swapMinerStart a b := by
  by_cases hq : s.qclient = false
  · have hi : initBlock env s = .panic "nil pointer dereference" (s.log .enterInitBlock) := by
      simp [initBlock, getInitHeight, log_qclient, hq]
    rw [hi]
    exact ⟨rfl, rfl, [], by simp [Outcome.state, log_trace], by simp⟩
  · have hq2 : s.qclient = true := by simpa using hq
    have hfail : ∀ msg, getInitHeight env (s.log .enterInitBlock) =
        .panic msg ((s.log .enterInitBlock).log (.send "blockchain" .EventGetBlockHeight)) →
        (initBlock env s).state.minerStart = s.minerStart ∧
        (initBlock env s).state.once = s.once ∧
        ∃ added, (initBlock env s).state.trace = s.trace ++ .enterInitBlock :: added ∧
          ∀ o ∈ added, o ≠ .enterInitBlock ∧ ∀ a b, o ≠ .swapMinerStart a b := by
      intro msg hm
      have hi : initBlock env s = .panic msg
          ((s.log .enterInitBlock).log (.send "blockchain" .EventGetBlockHeight)) := by
        simp [initBlock, hm]
      rw [hi]
      exact ⟨rfl, rfl, [.send "blockchain" .EventGetBlockHeight],
        by simp [Outcome.state, log_trace], by simp⟩
    cases hd : env.waitHeight.data with
    | none =>
      obtain ⟨msg, hm⟩ := (getInitHeight_wired env (s.log .enterInitBlock) hq2).2 (Or.inl hd)
      exact hfail msg hm
    | some h =>
      cases he : env.waitHeight.err with
      | some e =>
        obtain ⟨msg, hm⟩ := (getInitHeight_wired env (s.log .enterInitBlock) hq2).2
          (Or.inr (by rw [he]; simp))
        exact hfail msg hm
      | none =>
        have hg := (getInitHeight_wired env (s.log .enterInitBlock) hq2).1 h hd he
        by_cases hh : h = -1
        · subst hh
          rw [initBlock_genesis_state env s _ hg]
          obtain ⟨f1, f2, _⟩ := WriteBlock_frame env
            ((s.log .enterInitBlock).log (.send "blockchain" .EventGetBlockHeight)) zeroHash
            (genesisBlock env
              ((s.log .enterInitBlock).log (.send "blockchain" .EventGetBlockHeight)))
          obtain ⟨rest, h1, h2⟩ := WriteBlock_trace env
            ((s.log .enterInitBlock).log (.send "blockchain" .EventGetBlockHeight)) zeroHash
            (genesisBlock env
              ((s.log .enterInitBlock).log (.send "blockchain" .EventGetBlockHeight)))
          refine ⟨by rw [f1]; rfl, by rw [f2]; rfl, _, by rw [h1]; simp [log_trace]; rfl, ?_⟩
          intro o ho
          rcases h2 with rfl | ⟨r, _, _, rfl⟩
          · simp at ho
            rcases ho with rfl | rfl | rfl <;> simp
          · simp at ho
            rcases ho with rfl | rfl | rfl | rfl <;> simp
        · have hreq : ∀ t, (initBlock env s).state = t →
              (t = ((s.log .enterInitBlock).log (.send "blockchain" .EventGetBlockHeight)).log
                  (.send "blockchain" (.EventGetBlocks h h false)) ∨
                ∃ b, t = SetCurrentBlock
                  (((s.log .enterInitBlock).log (.send "blockchain" .EventGetBlockHeight)).log
                    (.send "blockchain" (.EventGetBlocks h h false))) b) := by
            intro t ht
            rw [← ht]
            simp only [initBlock, hg, hh, if_false, RequestBlock, log_qclient, hq2]
            cases (env.waitBlocks h h).err with
            | some e => left; simp [Outcome.state]
            | none =>
              cases (env.waitBlocks h h).data with
              | none => left; simp [Outcome.state]
              | some items =>
                cases items with
                | nil => left; simp [Outcome.state]
                | cons d rest => right; exact ⟨d.Block, by simp [Outcome.state]⟩
          rcases hreq _ rfl with ht | ⟨b, ht⟩
          · rw [ht]
            exact ⟨rfl, rfl, [.send "blockchain" .EventGetBlockHeight,
              .send "blockchain" (.EventGetBlocks h h false)], by simp [log_trace], by simp⟩
          · rw [ht]
            refine ⟨by rw [SetCurrentBlock_minerStart]; rfl, by rw [SetCurrentBlock_once]; rfl,
              [.send "blockchain" .EventGetBlockHeight,
                .send "blockchain" (.EventGetBlocks h h false)],
              by rw [SetCurrentBlock_trace]; simp [log_trace], by simp⟩

theorem onceDo_closed (s : BaseClient) (f : BaseClient → Outcome Unit) (h : s.once = true) :
    onceDo s f = .ok () s := by
  simp [onceDo, h]

theorem onceDo_open_state (s : BaseClient) (f : BaseClient → Outcome Unit)
    (h : s.once = false) :
    (onceDo s f).state = { (f s).state with once := true } ∧
    (onceDo s f).isPanic = (f s).isPanic := by
  simp only [onceDo, h]
  cases f s <;> simp [Outcome.state, Outcome.isPanic]

/-- Running `once.Do(initBlock)` on a client whose entry count agrees with its
latch: afterwards the latch is closed, `initBlock` was entered once in all,
and the flag and the recorded swaps are as before. -/
theorem onceDo_initBlock_inv (env : Env) (s : BaseClient)
    (hruns : initBlockRuns s = (if s.once then 1 else 0)) :
    (onceDo s (initBlock env)).state.minerStart = s.minerStart ∧
    (onceDo s (initBlock env)).state.once = true ∧
    initBlockRuns (onceDo s (initBlock env)).state = 1 ∧
    ∀ a b, Obs.swapMinerStart a b ∈ (onceDo s (initBlock env)).state.trace ↔
      Obs.swapMinerStart a b ∈ s.trace := by
  cases ho : s.once with
  | true =>
    rw [onceDo_closed s _ ho]
    exact ⟨rfl, ho, by rw [show (Outcome.ok () s).state = s from rfl, hruns, ho]; rfl,
      fun _ _ => Iff.rfl⟩
  | false =>
    rw [(onceDo_open_state s (initBlock env) ho).1]
    obtain ⟨h1, _, added, h3, h4⟩ := initBlock_summary env s
    have hcount : added.count .enterInitBlock = 0 :=
      List.count_eq_zero.mpr (fun hmem => (h4 _ hmem).1 rfl)
    have hzero : s.trace.count .enterInitBlock = 0 := by
      have := hruns
      rw [ho] at this
      simpa [initBlockRuns] using this
    refine ⟨h1, rfl, ?_, ?_⟩
    · simp only [initBlockRuns]
      rw [h3, List.count_append, List.count_cons_self, hcount, hzero]
    · intro a b
      simp only []
      rw [h3]
      simp only [List.mem_append, List.mem_cons]
      constructor
      · rintro (h | h | h)
        · exact h
        · cases h
        · exact absurd rfl ((h4 _ h).2 a b)
      · exact fun h => Or.inl h

theorem handle_start_mining (env : Env) (s : BaseClient) (h : s.minerStart ≠ 0) :
    handle env s .EventMinerStart = .ok (some ("EventMinerStart", some .ErrMinerIsStared)) s := by
  simp [handle, CompareAndSwapMinerStart, h]

theorem handle_start_idle (env : Env) (s : BaseClient) (h : s.minerStart = 0) :
    handle env s .EventMinerStart =
      (match onceDo (started s) (initBlock env) with
        | .panic e s2 => .panic e s2
        | .ok _ s2 => .ok (some ("EventMinerStart", none)) s2) := by
  simp [handle, CompareAndSwapMinerStart, h, started]

theorem handle_start_idle_state (env : Env) (s : BaseClient) (h : s.minerStart = 0) :
    (handle env s .EventMinerStart).state = (onceDo (started s) (initBlock env)).state ∧
    (handle env s .EventMinerStart).isPanic = (onceDo (started s) (initBlock env)).isPanic := by
  rw [handle_start_idle env s h]
  cases onceDo (started s) (initBlock env) <;> simp [Outcome.state, Outcome.isPanic]

theorem handle_stop_mining (env : Env) (s : BaseClient) (h : s.minerStart = 1) :
    handle env s .EventMinerStop = .ok (some ("EventMinerStop", none)) (stopped s) := by
  simp [handle, CompareAndSwapMinerStart, h, stopped]

theorem handle_stop_idle (env : Env) (s : BaseClient) (h : s.minerStart ≠ 1) :
    handle env s .EventMinerStop = .ok (some ("EventMinerStop", some .ErrMinerNotStared)) s := by
  simp [handle, CompareAndSwapMinerStart, h]

theorem started_runs (s : BaseClient) : initBlockRuns (started s) = initBlockRuns s := by
  simp [initBlockRuns, started, log_trace, List.count_append]

/-- Every message keeps the run invariant, whether it is handled or panics. -/
theorem handle_inv (env : Env) (cfg : Consensus) (s : BaseClient) (m : Message)
    (hinv : RunInv cfg s) : RunInv cfg (handle env s m).state := by
  obtain ⟨hflag, hruns, honce⟩ := hinv
  cases m with
  | EventAddBlock detail =>
    simp only [handle, Outcome.state]
    refine ⟨by rw [SetCurrentBlock_minerStart]; exact hflag, ?_, ?_⟩
    · simp only [initBlockRuns, SetCurrentBlock_trace, SetCurrentBlock_once]
      exact hruns
    · rw [SetCurrentBlock_once, SetCurrentBlock_trace]; exact honce
  | other ty => exact ⟨hflag, hruns, honce⟩
  | EventMinerStop =>
    by_cases h1 : s.minerStart = 1
    · rw [handle_stop_mining env s h1]
      refine ⟨Or.inl rfl, ?_, ?_⟩
      · simp only [Outcome.state, initBlockRuns, stopped, log_trace, List.count_append]
        simpa [initBlockRuns] using hruns
      · show s.once = true ↔
          (cfg.Minerstart = true ∨ Obs.swapMinerStart 0 1 ∈ s.trace ++ [.swapMinerStart 1 0])
        rw [honce]
        simp
    · rw [handle_stop_idle env s h1]
      exact ⟨hflag, hruns, honce⟩
  | EventMinerStart =>
    by_cases h0 : s.minerStart = 0
    · rw [(handle_start_idle_state env s h0).1]
      obtain ⟨f1, f2, f3, f4⟩ := onceDo_initBlock_inv env (started s)
        (by rw [started_runs]; exact hruns)
      refine ⟨Or.inr (by rw [f1]; rfl), by rw [f3, f2]; rfl, ?_⟩
      rw [f2]
      simp only [true_iff]
      exact Or.inr ((f4 0 1).mpr (by simp [started, log_trace]))
    · rw [handle_start_mining env s h0]
      exact ⟨hflag, hruns, honce⟩

theorem eventLoop_inv (env : Env) (cfg : Consensus) (msgs : List Message) :
    ∀ s, RunInv cfg s → RunInv cfg (eventLoop env s msgs).state := by
  induction msgs with
  | nil => intro s h; exact h
  | cons m ms ih =>
    intro s h
    have hm := handle_inv env cfg s m h
    simp only [eventLoop]
    cases hh : handle env s m with
    | panic e s1 => rw [hh] at hm; exact hm
    | ok r s1 => rw [hh] at hm; exact ih s1 hm

theorem SetQueue_inv (env : Env) (cfg : Consensus) :
    RunInv cfg (SetQueue env (NewBaseClient cfg)).state := by
  cases hc : cfg.Minerstart with
  | false =>
    simp only [SetQueue, NewBaseClient, hc, Outcome.state]
    exact ⟨Or.inl rfl, rfl, by simp [hc]⟩
  | true =>
    have hs : SetQueue env (NewBaseClient cfg) =
        onceDo { NewBaseClient cfg with qclient := true } (initBlock env) := by
      simp [SetQueue, NewBaseClient, hc]
    rw [hs]
    obtain ⟨f1, f2, f3, _⟩ := onceDo_initBlock_inv env
      { NewBaseClient cfg with qclient := true } rfl
    refine ⟨Or.inr (by rw [f1]; simp [NewBaseClient, hc]), by rw [f3, f2]; rfl, ?_⟩
    rw [f2]
    simp [hc]

/-- Every client a run reaches, by returning or by panicking, satisfies the
run invariant. -/
theorem run_inv (env : Env) (cfg : Consensus) (msgs : List Message) :
    RunInv cfg (run env cfg msgs).state := by
  have h := SetQueue_inv env cfg
  simp only [run]
  cases hh : SetQueue env (NewBaseClient cfg) with
  | panic e s1 => rw [hh] at h; exact h
  | ok r s1 => rw [hh] at h; exact eventLoop_inv env cfg msgs s1 h

/-- C7. In every run (wiring, then any finite feed of messages) `initBlock` is
entered at most once; it is entered exactly once if and only if the driver
was built with mining enabled or some start-mining command swapped the flag
from 0 to 1; and a start-mining command answered with `ErrMinerIsStared`
leaves the client, hence the number of entries, as it was. -/
theorem initBlock_at_most_once (env : Env) (cfg : Consensus) (msgs : List Message) :
    initBlockRuns (run env cfg msgs).state ≤ 1 ∧
    (initBlockRuns (run env cfg msgs).state = 1 ↔
      (cfg.Minerstart = true ∨
        Obs.swapMinerStart 0 1 ∈ (run env cfg msgs).state.trace)) ∧
    (∀ (t t1 : BaseClient) (title : String),
      handle env t .EventMinerStart = .ok (some (title, some .ErrMinerIsStared)) t1 →
      t1 = t ∧ initBlockRuns t1 = initBlockRuns t) := by
  obtain ⟨_, hruns, honce⟩ := run_inv env cfg msgs
  refine ⟨?_, ?_, ?_⟩
  · rw [hruns]; split <;> simp
  · rw [← honce, hruns]
    cases (run env cfg msgs).state.once <;> simp
  · intro t t1 title ht
    by_cases h0 : t.minerStart = 0
    · rw [handle_start_idle env t h0] at ht
      cases hh : onceDo (started t) (initBlock env) with
      | panic e s2 => rw [hh] at ht; cases ht
      | ok r s2 => rw [hh] at ht; cases ht
    · rw [handle_start_mining env t h0] at ht
      cases ht
      exact ⟨rfl, rfl⟩

/-- A start-mining command on an idle client: it replies nil and leaves the
flag at 1, unless the startup it triggers panics. -/
theorem handle_start_idle_cases (env : Env) (s : BaseClient) (h : s.minerStart = 0) :
    (∃ s1, handle env s .EventMinerStart = .ok (some ("EventMinerStart", none)) s1 ∧
      s1.minerStart = 1 ∧ (s.once = true ∨ (initBlock env (started s)).isPanic = false)) ∨
    (∃ e s1, handle env s .EventMinerStart = .panic e s1 ∧ s.once = false ∧
      (initBlock env (started s)).isPanic = true) := by
  rw [handle_start_idle env s h]
  cases ho : s.once with
  | true =>
    left
    rw [onceDo_closed (started s) _ ho]
    exact ⟨started s, rfl, rfl, Or.inl rfl⟩
  | false =>
    have hsum := (initBlock_summary env (started s)).1
    have ho2 : (started s).once = false := ho
    simp only [onceDo, ho2]
    cases hi : initBlock env (started s) with
    | ok r s1 =>
      left
      rw [hi] at hsum
      exact ⟨{ s1 with once := true }, rfl, hsum, Or.inr rfl⟩
    | panic e s1 =>
      right
      exact ⟨e, { s1 with once := true }, rfl, trivial, rfl⟩

/-- The start-mining command on an idle client, outcome by outcome: with the
latch closed it replies nil on the swapped client; with the latch open it
runs `initBlock` on the swapped client, closes the latch, and replies nil if
`initBlock` returned or panics with the same message if `initBlock` panicked. -/
theorem handle_start_idle_exact (env : Env) (s : BaseClient) (h : s.minerStart = 0) :
    (s.once = true →
      handle env s .EventMinerStart = .ok (some ("EventMinerStart", none)) (started s)) ∧
    (s.once = false → ∀ r s1, initBlock env (started s) = .ok r s1 →
      handle env s .EventMinerStart =
        .ok (some ("EventMinerStart", none)) { s1 with once := true }) ∧
    (s.once = false → ∀ e s1, initBlock env (started s) = .panic e s1 →
      handle env s .EventMinerStart = .panic e { s1 with once := true } ∧
      s1.minerStart = 1) := by
  rw [handle_start_idle env s h]
  refine ⟨fun ho => ?_, fun ho r s1 hi => ?_, fun ho e s1 hi => ?_⟩
  · rw [onceDo_closed (started s) _ ho]
  · have ho2 : (started s).once = false := ho
    simp only [onceDo, ho2, hi]
    rfl
  · have ho2 : (started s).once = false := ho
    have hsum := (initBlock_summary env (started s)).1
    rw [hi] at hsum
    simp only [onceDo, ho2, hi]
    exact ⟨rfl, hsum⟩

/-- C4, amended. On a client whose flag is 0 (Idle) or 1 (Mining):
a start-mining command in Mining replies `ErrMinerIsStared` and changes
nothing; in Idle it sets the flag to 1 and replies nil, except that when this
transition triggers the startup and the startup panics the command panics
too, with the flag already at 1, and no reply is sent; it does reply nil when
the latch is already closed or the startup returns. A stop-mining command in
Mining replies nil and leaves Idle; in Idle it replies `ErrMinerNotStared`
and changes nothing. `IsMining` is true exactly in Mining. After a start that
returned, a second start replies `ErrMinerIsStared` in Mining; after a stop,
a second stop replies `ErrMinerNotStared` in Idle. -/
theorem mining_flag_machine (env : Env) (s : BaseClient) (hflag : Idle s ∨ Mining s) :
    (Mining s → handle env s .EventMinerStart =
      .ok (some ("EventMinerStart", some .ErrMinerIsStared)) s) ∧
    (Idle s →
      (∃ s1, handle env s .EventMinerStart = .ok (some ("EventMinerStart", none)) s1 ∧
        Mining s1) ∨
      (∃ e s1, handle env s .EventMinerStart = .panic e s1 ∧ s.once = false ∧
        (initBlock env (started s)).isPanic = true)) ∧
    (Idle s → (s.once = true ∨ (initBlock env (started s)).isPanic = false) →
      ∃ s1, handle env s .EventMinerStart = .ok (some ("EventMinerStart", none)) s1 ∧
        Mining s1) ∧
    (Mining s → handle env s .EventMinerStop = .ok (some ("EventMinerStop", none)) (stopped s) ∧
      Idle (stopped s)) ∧
    (Idle s → handle env s .EventMinerStop =
      .ok (some ("EventMinerStop", some .ErrMinerNotStared)) s) ∧
    (IsMining s = true ↔ Mining s) ∧
    (∀ r s1, handle env s .EventMinerStart = .ok r s1 →
      handle env s1 .EventMinerStart =
        .ok (some ("EventMinerStart", some .ErrMinerIsStared)) s1 ∧ Mining s1) ∧
    (∀ r s1, handle env s .EventMinerStop = .ok r s1 →
      handle env s1 .EventMinerStop =
        .ok (some ("EventMinerStop", some .ErrMinerNotStared)) s1 ∧ Idle s1) ∧
    (Idle s → s.once = false → ∀ e s1, initBlock env (started s) = .panic e s1 →
      handle env s .EventMinerStart = .panic e { s1 with once := true } ∧
      Mining { s1 with once := true }) ∧
    (Idle s → s.once = false → ∀ r s1, initBlock env (started s) = .ok r s1 →
      handle env s .EventMinerStart =
        .ok (some ("EventMinerStart", none)) { s1 with once := true }) ∧
    (Idle s → s.once = true →
      handle env s .EventMinerStart = .ok (some ("EventMinerStart", none)) (started s)) ∧
    (∀ reply s1, handle env s .EventMinerStart = .ok reply s1 →
      (reply = some ("EventMinerStart", none) ↔ Idle s) ∧
      (reply = some ("EventMinerStart", some .ErrMinerIsStared) ↔ Mining s)) := by
  have hstart : ∀ r s1, handle env s .EventMinerStart = .ok r s1 → s1.minerStart = 1 := by
    intro r s1 hr
    rcases hflag with h0 | h1
    · rcases handle_start_idle_cases env s h0 with ⟨s2, h2, hm, _⟩ | ⟨e, s2, h2, _, _⟩
      · rw [h2] at hr; cases hr; exact hm
      · rw [h2] at hr; cases hr
    · have hne : s.minerStart ≠ 0 := by unfold Mining at h1; omega
      rw [handle_start_mining env s hne] at hr
      cases hr; exact h1
  have hstop : ∀ r s1, handle env s .EventMinerStop = .ok r s1 → s1.minerStart = 0 := by
    intro r s1 hr
    rcases hflag with h0 | h1
    · have hne : s.minerStart ≠ 1 := by unfold Idle at h0; omega
      rw [handle_stop_idle env s hne] at hr
      cases hr; exact h0
    · rw [handle_stop_mining env s h1] at hr
      cases hr; rfl
  refine ⟨?_, ?_, ?_, ?_, ?_, by simp [IsMining, Mining], ?_, ?_, ?_, ?_, ?_, ?_⟩
  · intro h1
    exact handle_start_mining env s (by unfold Mining at h1; omega)
  · intro h0
    rcases handle_start_idle_cases env s h0 with ⟨s2, h2, hm, _⟩ | ⟨e, s2, h2, ho, hp⟩
    · exact Or.inl ⟨s2, h2, hm⟩
    · exact Or.inr ⟨e, s2, h2, ho, hp⟩
  · intro h0 hfine
    rcases handle_start_idle_cases env s h0 with ⟨s2, h2, hm, _⟩ | ⟨e, s2, _, ho, hp⟩
    · exact ⟨s2, h2, hm⟩
    · rcases hfine with h | h
      · rw [ho] at h; cases h
      · rw [hp] at h; cases h
  · intro h1
    exact ⟨handle_stop_mining env s h1, rfl⟩
  · intro h0
    exact handle_stop_idle env s (by unfold Idle at h0; omega)
  · intro r s1 hr
    have hm := hstart r s1 hr
    exact ⟨handle_start_mining env s1 (by omega), hm⟩
  · intro r s1 hr
    have hm := hstop r s1 hr
    exact ⟨handle_stop_idle env s1 (by omega), hm⟩
  · intro h0 ho e s1 hi
    exact (handle_start_idle_exact env s h0).2.2 ho e s1 hi
  · intro h0 ho r s1 hi
    exact (handle_start_idle_exact env s h0).2.1 ho r s1 hi
  · intro h0 ho
    exact (handle_start_idle_exact env s h0).1 ho
  · intro reply s1 hr
    rcases hflag with h0 | h1
    · have hne : ¬ Mining s := by unfold Mining; unfold Idle at h0; omega
      rcases handle_start_idle_cases env s h0 with ⟨s2, h2, _, _⟩ | ⟨e, s2, h2, _, _⟩
      · rw [h2] at hr
        cases hr
        simp [h0, hne]
      · rw [h2] at hr; cases hr
    · have hne : s.minerStart ≠ 0 := by unfold Mining at h1; omega
      rw [handle_start_mining env s hne] at hr
      cases hr
      simp [h1, Idle, hne]

/-- C4, amended, at concrete inputs: a start on a fresh idle client whose
startup succeeds, then a second start on the resulting client; a stop on a
mining client and on an idle one; a start on a fresh idle client whose startup
panics because the wait for the height reply fails. -/
theorem mining_flag_machine_witness :
    (∃ s1, handle envGenesis wiredIdle .EventMinerStart =
        .ok (some ("EventMinerStart", none)) s1 ∧ Mining s1) ∧
    handle envGenesis (started wiredIdle) .EventMinerStart =
      .ok (some ("EventMinerStart", some .ErrMinerIsStared)) (started wiredIdle) ∧
    (handle envGenesis (started wiredIdle) .EventMinerStop =
        .ok (some ("EventMinerStop", none)) (stopped (started wiredIdle)) ∧
      Idle (stopped (started wiredIdle))) ∧
    handle envGenesis wiredIdle .EventMinerStop =
      .ok (some ("EventMinerStop", some .ErrMinerNotStared)) wiredIdle ∧
    (handle envHeightLost wiredIdle .EventMinerStart =
        .panic "interface conversion"
          { ((started wiredIdle).log .enterInitBlock).log
              (.send "blockchain" .EventGetBlockHeight) with once := true } ∧
      Mining { ((started wiredIdle).log .enterInitBlock).log
        (.send "blockchain" .EventGetBlockHeight) with once := true }) :=
  ⟨(mining_flag_machine envGenesis wiredIdle (Or.inl rfl)).2.2.1 rfl (Or.inr (by decide)),
    (mining_flag_machine envGenesis (started wiredIdle) (Or.inr rfl)).1 rfl,
    (mining_flag_machine envGenesis (started wiredIdle) (Or.inr rfl)).2.2.2.1 rfl,
    (mining_flag_machine envGenesis wiredIdle (Or.inl rfl)).2.2.2.2.1 rfl,
    (mining_flag_machine envHeightLost wiredIdle (Or.inl rfl)).2.2.2.2.2.2.2.2.1 rfl rfl
      "interface conversion"
      (((started wiredIdle).log .enterInitBlock).log (.send "blockchain" .EventGetBlockHeight))
      (by decide)⟩

/-- C4 as stated fails. A driver built with mining disabled is wired and is
Idle; the wait for the height reply fails. The start-mining command swaps the
flag, enters the startup, and the startup panics: the command is answered
neither with nil nor with an error. -/
theorem mining_flag_counterexample :
    (run envHeightLost cfgIdle []).isPanic = false ∧
    Idle (run envHeightLost cfgIdle []).state ∧
    (run envHeightLost cfgIdle []).state.once = false ∧
    handle envHeightLost (run envHeightLost cfgIdle []).state .EventMinerStart =
      .panic "interface conversion"
        { qclient := true, minerStart := 1, once := true, Cfg := cfgIdle,
          currentBlock := none,
          trace := [.swapMinerStart 0 1, .enterInitBlock,
            .send "blockchain" .EventGetBlockHeight] } := by
  decide

end Drivers
